import Mathlib

/-!
Verification of the DataNormTS schema interpreter and entity-store engine.

The definitions below are a shallow embedding of the TypeScript sources:
`src/normalizers/normalizer.ts` (`normalize`, `normalizeObject`),
`src/normalizers/arrayNormalizer.ts` (`normalizeArray`),
`src/normalizers/customNormalizer.ts` (`normalizeEntity`, `normalizeCustomEntity`),
the primitive normalizer (`normalizePrimitive` with its string/number validators),
`src/validators/validators.ts` plus the top-level `validateSchema`,
`src/denormalizers/denormalizer.ts` (the exported `denormalize` with its inner
`denormalizeEntity`), and `src/denormalizers/primitiveDenormalizer.ts`
(`denormalizePrimitive`).

JavaScript runtime behaviour that the engine relies on is modelled explicitly:
property maps are insertion-ordered association lists, property assignment is
an in-place upsert, object keys are the `String(...)` coercion of the index
value, and `if (!x)` tests use JS falsiness.  Machine "numbers" are modelled as
`Int` (no claim touches fractional values), regular-expression compilation and
matching (`new RegExp(p).test(v)`) is an explicit parameter `cr`, and the
process-wide custom-handler registry is threaded as an explicit argument.
Errors are structured values carrying the pieces of the source error contexts
that identify the failure (entity name, id, property key, index, expected and
actual types).
-/

namespace DataNormTS

/-- A JSON-like runtime value (the `unknown` data the engine walks).  Object
fields are kept in insertion order, as JS string-keyed properties are. -/
inductive Value where
  | vStr (s : String)
  | vNum (n : Int)
  | vBool (b : Bool)
  | vArr (elems : List Value)
  | vObj (fields : List (String × Value))

mutual
/-- Structural (deep) equality test on values. -/
def Value.beq : Value → Value → Bool
  | .vStr a, .vStr b => a == b
  | .vNum a, .vNum b => a == b
  | .vBool a, .vBool b => a == b
  | .vArr a, .vArr b => Value.beqList a b
  | .vObj a, .vObj b => Value.beqFields a b
  | _, _ => false
/-- Elementwise `Value.beq` on lists. -/
def Value.beqList : List Value → List Value → Bool
  | [], [] => true
  | x :: xs, y :: ys => Value.beq x y && Value.beqList xs ys
  | _, _ => false
/-- Keyed elementwise `Value.beq` on field lists. -/
def Value.beqFields : List (String × Value) → List (String × Value) → Bool
  | [], [] => true
  | (k, x) :: xs, (l, y) :: ys => k == l && Value.beq x y && Value.beqFields xs ys
  | _, _ => false
end

mutual
theorem Value.beq_iff : ∀ a b : Value, Value.beq a b = true ↔ a = b
  | .vStr _, .vStr _ => by simp [Value.beq]
  | .vNum _, .vNum _ => by simp [Value.beq]
  | .vBool _, .vBool _ => by simp [Value.beq]
  | .vArr a, .vArr b => by simp [Value.beq, Value.beqList_iff a b]
  | .vObj a, .vObj b => by simp [Value.beq, Value.beqFields_iff a b]
  | .vStr _, .vNum _ => by simp [Value.beq]
  | .vStr _, .vBool _ => by simp [Value.beq]
  | .vStr _, .vArr _ => by simp [Value.beq]
  | .vStr _, .vObj _ => by simp [Value.beq]
  | .vNum _, .vStr _ => by simp [Value.beq]
  | .vNum _, .vBool _ => by simp [Value.beq]
  | .vNum _, .vArr _ => by simp [Value.beq]
  | .vNum _, .vObj _ => by simp [Value.beq]
  | .vBool _, .vStr _ => by simp [Value.beq]
  | .vBool _, .vNum _ => by simp [Value.beq]
  | .vBool _, .vArr _ => by simp [Value.beq]
  | .vBool _, .vObj _ => by simp [Value.beq]
  | .vArr _, .vStr _ => by simp [Value.beq]
  | .vArr _, .vNum _ => by simp [Value.beq]
  | .vArr _, .vBool _ => by simp [Value.beq]
  | .vArr _, .vObj _ => by simp [Value.beq]
  | .vObj _, .vStr _ => by simp [Value.beq]
  | .vObj _, .vNum _ => by simp [Value.beq]
  | .vObj _, .vBool _ => by simp [Value.beq]
  | .vObj _, .vArr _ => by simp [Value.beq]
theorem Value.beqList_iff : ∀ a b : List Value, Value.beqList a b = true ↔ a = b
  | [], [] => by simp [Value.beqList]
  | x :: xs, y :: ys => by
      simp [Value.beqList, Value.beq_iff x y, Value.beqList_iff xs ys]
  | [], _ :: _ => by simp [Value.beqList]
  | _ :: _, [] => by simp [Value.beqList]
theorem Value.beqFields_iff : ∀ a b : List (String × Value), Value.beqFields a b = true ↔ a = b
  | [], [] => by simp [Value.beqFields]
  | (k, x) :: xs, (l, y) :: ys => by
      simp [Value.beqFields, Value.beq_iff x y, Value.beqFields_iff xs ys]
  | [], _ :: _ => by simp [Value.beqFields]
  | _ :: _, [] => by simp [Value.beqFields]
end

instance : DecidableEq Value := fun a b => decidable_of_iff _ (Value.beq_iff a b)

/-- JS `typeof` restricted to the modelled values (arrays and plain objects
both report `"object"`). -/
def typeofValue : Value → String
  | .vStr _ => "string"
  | .vNum _ => "number"
  | .vBool _ => "boolean"
  | .vArr _ => "object"
  | .vObj _ => "object"

/-- JS falsiness of a modelled value (`""`, `0` and `false`; every array and
object is truthy). -/
def isFalsy : Value → Bool
  | .vStr s => s = ""
  | .vNum n => n = 0
  | .vBool b => b = false
  | .vArr _ => false
  | .vObj _ => false

/-- `isEntityID` from `src/normalizers/normalizationUtils.ts`: a value is an
EntityID when `typeof` is `string` or `number`. -/
def isEntityID : Value → Bool
  | .vStr _ => true
  | .vNum _ => true
  | _ => false

mutual
/-- JS `String(...)` coercion, as used when a value indexes an object
(`entities[name][id]`): strings pass through, numbers and booleans print,
plain objects print as `[object Object]`, arrays join their coerced elements
with commas. -/
def jsToString : Value → String
  | .vStr s => s
  | .vNum n => toString n
  | .vBool b => if b then "true" else "false"
  | .vObj _ => "[object Object]"
  | .vArr xs => jsToStringList xs
/-- Comma-joined `String(...)` coercions of an array's elements. -/
def jsToStringList : List Value → String
  | [] => ""
  | [x] => jsToString x
  | x :: y :: t => jsToString x ++ "," ++ jsToStringList (y :: t)
end

/-- A schema node (`SchemaEntity` from `src/types.ts`).  The `type` tag is the
constructor; each variant carries exactly the fields the source reads on that
variant.  `arr` keeps the optional `name` because `denormalizeEntity` reads
`schemaEntity.name` on array nodes as well. -/
inductive SchemaEntity where
  | obj (name : Option String) (properties : List (String × SchemaEntity))
        (required : Option (List String))
  | arr (name : Option String) (items : SchemaEntity)
  | str (minLength maxLength : Option Nat) (pattern : Option String)
  | num (minimum maximum : Option Int)
  | bool
  | custom (name : Option String)

/-- A top-level `Schema`: an insertion-ordered map from key to `SchemaEntity`
(`Object.keys(schema)[0]` is the head of the list). -/
abbrev Schema := List (String × SchemaEntity)

/-- One type partition of the entity store: an insertion-ordered map from the
string-coerced id to the stored value. -/
abbrev Partition := List (String × Value)

/-- The entity store: insertion-ordered map from entity-type name to its
partition. -/
abbrev Store := List (String × Partition)

/-- The `{entities, result}` pair a successful `normalize` returns. -/
structure NormalizedData where
  entities : Store
  result : Value

/-- Lookup in an insertion-ordered JS object model. -/
def alookup {α : Type} : List (String × α) → String → Option α
  | [], _ => none
  | (k, v) :: t, q => if k = q then some v else alookup t q

/-- JS property assignment `m[q] = x`: replaces in place when the key exists,
appends otherwise. -/
def aupsert {α : Type} : List (String × α) → String → α → List (String × α)
  | [], q, x => [(q, x)]
  | (k, v) :: t, q, x => if k = q then (q, x) :: t else (k, v) :: aupsert t q x

/-- JS truthiness of an optional `name` field (`undefined` and `""` are
falsy). -/
def nameTruthy : Option String → Bool
  | none => false
  | some s => s ≠ ""

/-- `schema.name || 'unnamed'` from `normalizeObject`. -/
def entityNameOf (nm : Option String) : String :=
  match nm with
  | some s => if s = "" then "unnamed" else s
  | none => "unnamed"

/-- `if (!entities[name]) entities[name] = {}`. -/
def ensurePartition (σ : Store) (t : String) : Store :=
  match alookup σ t with
  | some _ => σ
  | none => aupsert σ t []

/-- `entities[t][k] = v` (the partition is created first if absent; in the
source every write site runs after `ensurePartition`). -/
def storeWrite (σ : Store) (t k : String) (v : Value) : Store :=
  match alookup σ t with
  | some p => aupsert σ t (aupsert p k v)
  | none => aupsert σ t [(k, v)]

/-- A `SchemaValidationError`, identified by the offending path plus which
check in `src/validators/validators.ts` fired.  Checks that the typed deep
embedding makes unrepresentable (missing `properties`, non-numeric bounds,
non-string `pattern`, invalid `type` tag, non-boolean `optional`) have no
constructor here. -/
inductive SchemaErr where
  | topLevelNameMissing (path : String)
  | minLengthGreaterMax (path : String)
  | minimumGreaterMax (path : String)
  | customNameMissing (path : String)
  | tooDeep (path : String)
deriving DecidableEq

/-- A `NormalizationError`, identified by its message plus the identifying
parts of its context map. -/
inductive NormErr where
  | schemaValidationFailed (e : SchemaErr)
  | invalidInputData (receivedType : String)
  | schemaMustHaveEntry
  | invalidEntityForObject (receivedType : String)
  | missingRequiredProperty (entityName : String) (id : Value) (missingProperty : String)
  | invalidEntityForArray (receivedType : String)
  | nestedArraysNotSupported (index : Nat)
  | arrayItemNotEntityID (index : Nat)
  | customSchemaNameMissing
  | noCustomHandlerFound (schemaName : String)
  | customHandlerArrayExpected
  | customHandlerArrayOfEntityIDs
  | customHandlerSingleExpected
  | customHandlerEntityIDExpected
  | entityIDNotStringOrNumber
  | typeMismatch (expected actual : String)
  | stringBelowMinLength (actualLength minLength : Nat)
  | stringAboveMaxLength (actualLength maxLength : Nat)
  | invalidPatternInSchema (pattern : String)
  | numberBelowMinimum (value minimum : Int)
  | numberAboveMaximum (value maximum : Int)
deriving DecidableEq

/-- A `DenormalizationError`, identified by its message plus the identifying
parts of its context map (`entityType` is the raw optional `schema.name`). -/
inductive DenormErr where
  | emptySchema
  | noEntitiesForType (entityType : Option String)
  | entityNotFound (entityType : Option String) (entityId : Value)
  | expectedArray (entityType : Option String) (entityId : Value)
  | typeMismatchD (expected actual : String)
deriving DecidableEq

/-- The entity type an error's context carries, if any. -/
def DenormErr.namedType : DenormErr → Option String
  | .noEntitiesForType t => t.getD "" |> some
  | .entityNotFound t _ => t.getD "" |> some
  | .expectedArray t _ => t.getD "" |> some
  | _ => none

/-- The entity id an error's context carries, if any. -/
def DenormErr.namedId : DenormErr → Option Value
  | .entityNotFound _ i => some i
  | .expectedArray _ i => some i
  | _ => none

/-- A registered custom schema handler: `(value, schema, entities) =>
EntityID | EntityID[]` (`unknown` at runtime; the engine checks the shape). -/
abbrev CustomHandler := Value → SchemaEntity → Store → Value

/-- The custom-handler registry (`Map<string, CustomSchemaHandler>` from
`src/types.ts`), threaded explicitly instead of process-wide state. -/
abbrev Registry := List (String × CustomHandler)

/-- `getCustomSchemaHandler(name)`. -/
def getCustomSchemaHandler (reg : Registry) (name : String) : Option CustomHandler :=
  alookup reg name

/-- `normalizePrimitive` with its `validateStringValue` / `validateNumberValue`
helpers.  `cr` is `new RegExp`: given a pattern it yields a matcher, or `none`
when compilation throws.  Note the source wraps the whole pattern test in
`try/catch`, so a pattern MISMATCH is re-caught and surfaces as the same
`Invalid pattern in schema` error as a compilation failure. -/
def normalizePrimitive (cr : String → Option (String → Bool)) (v : Value)
    (s : SchemaEntity) : Except NormErr Value :=
  match s with
  | .str minL maxL pat =>
    match v with
    | .vStr sv =>
      match minL with
      | some m =>
        if sv.length < m then .error (.stringBelowMinLength sv.length m)
        else normalizeStringTail cr sv maxL pat
      | none => normalizeStringTail cr sv maxL pat
    | _ => .error (.typeMismatch "string" (typeofValue v))
  | .num mi ma =>
    match v with
    | .vNum n =>
      match mi with
      | some m =>
        if n < m then .error (.numberBelowMinimum n m)
        else normalizeNumTail n ma
      | none => normalizeNumTail n ma
    | _ => .error (.typeMismatch "number" (typeofValue v))
  | .bool =>
    match v with
    | .vBool _ => .ok v
    | _ => .error (.typeMismatch "boolean" (typeofValue v))
  | .obj _ _ _ => .error (.typeMismatch "object" (typeofValue v))
  | .arr _ _ => .error (.typeMismatch "array" (typeofValue v))
  | .custom _ => .error (.typeMismatch "custom" (typeofValue v))
where
  /-- The `maxLength` and `pattern` checks of `validateStringValue`. -/
  normalizeStringTail (cr : String → Option (String → Bool)) (sv : String)
      (maxL : Option Nat) (pat : Option String) : Except NormErr Value :=
    match maxL with
    | some m =>
      if sv.length > m then .error (.stringAboveMaxLength sv.length m)
      else normalizePatternTail cr sv pat
    | none => normalizePatternTail cr sv pat
  /-- The `pattern` check of `validateStringValue` (both a compile failure and
  a mismatch surface as `Invalid pattern in schema`, because the mismatch
  error thrown inside the `try` is caught by its own `catch`). -/
  normalizePatternTail (cr : String → Option (String → Bool)) (sv : String)
      (pat : Option String) : Except NormErr Value :=
    match pat with
    | some p =>
      match cr p with
      | some test => if test sv then .ok (.vStr sv) else .error (.invalidPatternInSchema p)
      | none => .error (.invalidPatternInSchema p)
    | none => .ok (.vStr sv)
  /-- The `maximum` check of `validateNumberValue`. -/
  normalizeNumTail (n : Int) (ma : Option Int) : Except NormErr Value :=
    match ma with
    | some m =>
      if n > m then .error (.numberAboveMaximum n m)
      else .ok (.vNum n)
    | none => .ok (.vNum n)

/-- The `forEach` write-back of `normalizeCustomEntity` for array input: for
each `(id, original element)` pair in index order, re-check the id's type and
write `entities[name][id] = entity[index]`. -/
def writeCustomPairs (t : String) : List (Value × Value) → Store → Except NormErr Store
  | [], σ => .ok σ
  | (id, x) :: rest, σ =>
    if isEntityID id then writeCustomPairs t rest (storeWrite σ t (jsToString id) x)
    else .error .entityIDNotStringOrNumber

/-- `normalizeCustomEntity(entity, schema, entities)` from
`src/normalizers/customNormalizer.ts`; `nm` is the custom node's `name`.
The handler runs first (on the store as received); the engine then ensures
the partition, checks the result's shape against the input's shape class, and
itself writes the original input value(s) under the returned id(s). -/
def normalizeCustomEntity (reg : Registry) (v : Value) (nm : Option String)
    (σ : Store) : Except NormErr (Value × Store) :=
  match nm with
  | none => .error .customSchemaNameMissing
  | some name =>
    if name = "" then .error .customSchemaNameMissing
    else
      match getCustomSchemaHandler reg name with
      | none => .error (.noCustomHandlerFound name)
      | some handler =>
        let result := handler v (.custom (some name)) σ
        let σ₁ := ensurePartition σ name
        match v with
        | .vArr xs =>
          match result with
          | .vArr ids =>
            if ¬ ids.all isEntityID then .error .customHandlerArrayOfEntityIDs
            else if ids.length ≠ xs.length then .error .customHandlerArrayOfEntityIDs
            else
              match writeCustomPairs name (ids.zip xs) σ₁ with
              | .ok σ₂ => .ok (.vArr ids, σ₂)
              | .error e => .error e
          | _ => .error .customHandlerArrayExpected
        | _ =>
          match result with
          | .vArr _ => .error .customHandlerSingleExpected
          | r =>
            if ¬ isEntityID r then .error .customHandlerEntityIDExpected
            else .ok (r, storeWrite σ₁ name (jsToString r) v)

mutual
/-- `normalizeEntity(entity, schema, entities)` from
`src/normalizers/customNormalizer.ts`: dispatch on the schema node's tag. -/
def normalizeEntity (reg : Registry) (cr : String → Option (String → Bool))
    (s : SchemaEntity) (v : Value) (σ : Store) : Except NormErr (Value × Store) :=
  match s with
  | .custom nm => normalizeCustomEntity reg v nm σ
  | .obj nm props req => normalizeObject reg cr v nm props req σ
  | .arr _ items => normalizeArray reg cr v items σ
  | .str minL maxL pat =>
    match normalizePrimitive cr v (.str minL maxL pat) with
    | .ok r => .ok (r, σ)
    | .error e => .error e
  | .num mi ma =>
    match normalizePrimitive cr v (.num mi ma) with
    | .ok r => .ok (r, σ)
    | .error e => .error e
  | .bool =>
    match normalizePrimitive cr v .bool with
    | .ok r => .ok (r, σ)
    | .error e => .error e
termination_by (sizeOf s, 0, 0)

/-- `normalizeObject(entity, schema, entities)` from the object normalizer:
reject non-objects, resolve `schema.name || 'unnamed'`, create the partition,
then branch on the presence of an `id` field. -/
def normalizeObject (reg : Registry) (cr : String → Option (String → Bool))
    (v : Value) (nm : Option String) (props : List (String × SchemaEntity))
    (req : Option (List String)) (σ : Store) : Except NormErr (Value × Store) :=
  match v with
  | .vObj fields =>
    let entityName := entityNameOf nm
    let σ₀ := ensurePartition σ entityName
    match alookup fields "id" with
    | none =>
      match normalizePropsInline reg cr props fields σ₀ with
      | .ok (fs, σ') => .ok (.vObj fs, σ')
      | .error e => .error e
    | some idv =>
      match normalizePropsChecked reg cr props fields entityName idv req σ₀ with
      | .ok (fs, σ₁) => .ok (idv, storeWrite σ₁ entityName (jsToString idv) (.vObj fs))
      | .error e => .error e
  | _ => .error (.invalidEntityForObject (typeofValue v))
termination_by (sizeOf props, 1, 1)

/-- The property loop of `normalizeObject`'s no-`id` branch: normalize each
declared property that is present, skip absent ones. -/
def normalizePropsInline (reg : Registry) (cr : String → Option (String → Bool))
    (props : List (String × SchemaEntity)) (fields : List (String × Value))
    (σ : Store) : Except NormErr (List (String × Value) × Store) :=
  match props with
  | [] => .ok ([], σ)
  | (k, sk) :: rest =>
    match alookup fields k with
    | some fv =>
      match normalizeEntity reg cr sk fv σ with
      | .ok (r, σ₁) =>
        match normalizePropsInline reg cr rest fields σ₁ with
        | .ok (fs, σ₂) => .ok ((k, r) :: fs, σ₂)
        | .error e => .error e
      | .error e => .error e
    | none => normalizePropsInline reg cr rest fields σ
termination_by (sizeOf props, 0, 0)

/-- The guard `Array.isArray(schema.required) && schema.required.includes(key)`
of `normalizeObject`. -/
def requiredContains (req : Option (List String)) (k : String) : Bool :=
  match req with
  | some rl => rl.contains k
  | none => false

/-- The property loop of `normalizeObject`'s `id` branch: normalize each
declared present property; a declared absent property that appears in
`required` raises `Missing required property`. -/
def normalizePropsChecked (reg : Registry) (cr : String → Option (String → Bool))
    (props : List (String × SchemaEntity)) (fields : List (String × Value))
    (entityName : String) (idv : Value) (req : Option (List String))
    (σ : Store) : Except NormErr (List (String × Value) × Store) :=
  match props with
  | [] => .ok ([], σ)
  | (k, sk) :: rest =>
    match alookup fields k with
    | some fv =>
      match normalizeEntity reg cr sk fv σ with
      | .ok (r, σ₁) =>
        match normalizePropsChecked reg cr rest fields entityName idv req σ₁ with
        | .ok (fs, σ₂) => .ok ((k, r) :: fs, σ₂)
        | .error e => .error e
      | .error e => .error e
    | none =>
      if requiredContains req k then .error (.missingRequiredProperty entityName idv k)
      else normalizePropsChecked reg cr rest fields entityName idv req σ
termination_by (sizeOf props, 0, 0)

/-- `normalizeArray(array, schema, entities)` from
`src/normalizers/arrayNormalizer.ts` (`items` is `schema.items`). -/
def normalizeArray (reg : Registry) (cr : String → Option (String → Bool))
    (v : Value) (items : SchemaEntity) (σ : Store) : Except NormErr (Value × Store) :=
  match v with
  | .vArr xs =>
    match normalizeItems reg cr items xs 0 σ with
    | .ok (rs, σ') => .ok (.vArr rs, σ')
    | .error e => .error e
  | _ => .error (.invalidEntityForArray (typeofValue v))
termination_by (sizeOf items, 1, 1)

/-- The element loop of `normalizeArray`: each element's recursive result must
not itself be an array, and must be an EntityID. -/
def normalizeItems (reg : Registry) (cr : String → Option (String → Bool))
    (items : SchemaEntity) (xs : List Value) (i : Nat) (σ : Store) :
    Except NormErr (List Value × Store) :=
  match xs with
  | [] => .ok ([], σ)
  | x :: t =>
    match normalizeEntity reg cr items x σ with
    | .ok (r, σ₁) =>
      match r with
      | .vArr _ => .error (.nestedArraysNotSupported i)
      | _ =>
        if ¬ isEntityID r then .error (.arrayItemNotEntityID i)
        else
          match normalizeItems reg cr items t (i + 1) σ₁ with
          | .ok (rs, σ₂) => .ok (r :: rs, σ₂)
          | .error e => .error e
    | .error e => .error e
termination_by (sizeOf items, 0, xs.length + 1)
end

/-- `MAX_DEPTH` from `src/validators/constants.ts`. -/
def MAX_DEPTH : Nat := 100

mutual
/-- `validateSchemaEntity(entity, path, isTopLevel, depth)` from
`src/validators/validators.ts`.  Structural checks that the typed embedding
makes unrepresentable (missing `properties`/`items`, bad field types, invalid
`type` tag) are omitted; the remaining value-level checks are kept. -/
def validateSchemaEntity (s : SchemaEntity) (path : String) (isTopLevel : Bool)
    (depth : Nat) : Except SchemaErr Unit :=
  if depth > MAX_DEPTH then .error (.tooDeep path)
  else
    match s with
    | .obj nm props _req =>
      if isTopLevel ∧ ¬ nameTruthy nm then .error (.topLevelNameMissing path)
      else validateProps props path depth
    | .arr _ items => validateSchemaEntity items (path ++ ".items") false (depth + 1)
    | .str minL maxL _pat =>
      match minL, maxL with
      | some a, some b => if a > b then .error (.minLengthGreaterMax path) else .ok ()
      | _, _ => .ok ()
    | .num mi ma =>
      match mi, ma with
      | some a, some b => if a > b then .error (.minimumGreaterMax path) else .ok ()
      | _, _ => .ok ()
    | .bool => .ok ()
    | .custom nm =>
      if ¬ nameTruthy nm then .error (.customNameMissing path) else .ok ()
termination_by (sizeOf s, 1)

/-- The `Object.entries(entity.properties)` loop of `validateObjectSchema`. -/
def validateProps (props : List (String × SchemaEntity)) (path : String)
    (depth : Nat) : Except SchemaErr Unit :=
  match props with
  | [] => .ok ()
  | (k, sk) :: rest =>
    match validateSchemaEntity sk (path ++ "." ++ k) false (depth + 1) with
    | .ok () => validateProps rest path depth
    | .error e => .error e
termination_by (sizeOf props, 0)
end

/-- `validateSchema(schema)` from `src/schemaValidator.ts`: validate every
top-level entry with `isTopLevel = true` (default depth 0). -/
def validateSchema : Schema → Except SchemaErr Unit
  | [] => .ok ()
  | (k, s) :: rest =>
    match validateSchemaEntity s k true 0 with
    | .ok () => validateSchema rest
    | .error e => .error e

/-- `normalize(data, schema)` from `src/normalizers/normalizer.ts`: validate
the schema (a failure is re-wrapped as a `NormalizationError`), reject
non-object data, pick the schema's first entry as root, and run the recursive
walk on a fresh empty store. -/
def normalize (reg : Registry) (cr : String → Option (String → Bool))
    (data : Value) (sch : Schema) : Except NormErr NormalizedData :=
  match validateSchema sch with
  | .error e => .error (.schemaValidationFailed e)
  | .ok () =>
    if typeofValue data ≠ "object" then .error (.invalidInputData (typeofValue data))
    else
      match sch with
      | [] => .error .schemaMustHaveEntry
      | (_, s₀) :: _ =>
        match normalizeEntity reg cr s₀ data [] with
        | .ok (r, σ) => .ok ⟨σ, r⟩
        | .error e => .error e

/-- The shared prelude of the exported `denormalize`'s inner
`denormalizeEntity` (src/denormalizers/denormalizer.ts lines 11-19): read
`schemaEntity.name`; when it is truthy, look the id up in that type's
partition (a missing partition or a missing/falsy entry raises); when it is
falsy, `entityMap` is the whole `entities` object (always truthy) and the
"entity" is the id value itself (raising only when the id value is falsy). -/
def resolveEntity (entities : Store) (nm : Option String) (entityId : Value) :
    Except DenormErr Value :=
  if nameTruthy nm then
    match alookup entities (nm.getD "") with
    | none => .error (.noEntitiesForType nm)
    | some part =>
      match alookup part (jsToString entityId) with
      | none => .error (.entityNotFound nm entityId)
      | some e => if isFalsy e then .error (.entityNotFound nm entityId) else .ok e
  else if isFalsy entityId then .error (.entityNotFound nm entityId)
  else .ok entityId

mutual
/-- `denormalizeEntity(entityId, schemaEntity)` from the exported
`denormalize` (src/denormalizers/denormalizer.ts lines 7-41): any schema tag
other than `object`/`array` returns the id unchanged; otherwise the entity is
resolved and rebuilt property- or element-wise. -/
def denormalizeEntity (entities : Store) (entityId : Value) (s : SchemaEntity) :
    Except DenormErr Value :=
  match s with
  | .str _ _ _ => .ok entityId
  | .num _ _ => .ok entityId
  | .bool => .ok entityId
  | .custom _ => .ok entityId
  | .obj nm props _req =>
    match resolveEntity entities nm entityId with
    | .error e => .error e
    | .ok entity =>
      match entity with
      | .vObj efields =>
        match denormObjProps entities props efields with
        | .ok fs => .ok (.vObj fs)
        | .error e => .error e
      | _ => .ok (.vObj [])
  | .arr nm items =>
    match resolveEntity entities nm entityId with
    | .error e => .error e
    | .ok entity =>
      match entity with
      | .vArr xs =>
        match denormElems entities items xs with
        | .ok ds => .ok (.vArr ds)
        | .error e => .error e
      | _ => .error (.expectedArray nm entityId)
termination_by (sizeOf s, 0, 0)

/-- The `Object.entries(schemaEntity.properties)` loop of the object branch:
properties present on the stored record are recursed when their sub-schema is
`object`/`array` and copied verbatim otherwise; absent properties are
skipped. -/
def denormObjProps (entities : Store) (props : List (String × SchemaEntity))
    (efields : List (String × Value)) : Except DenormErr (List (String × Value)) :=
  match props with
  | [] => .ok []
  | (k, ps) :: rest =>
    match alookup efields k with
    | none => denormObjProps entities rest efields
    | some pv =>
      match ps with
      | .obj onm oprops oreq =>
        match denormalizeEntity entities pv (.obj onm oprops oreq) with
        | .ok dv =>
          match denormObjProps entities rest efields with
          | .ok fs => .ok ((k, dv) :: fs)
          | .error e => .error e
        | .error e => .error e
      | .arr anm aitems =>
        match denormalizeEntity entities pv (.arr anm aitems) with
        | .ok dv =>
          match denormObjProps entities rest efields with
          | .ok fs => .ok ((k, dv) :: fs)
          | .error e => .error e
        | .error e => .error e
      | _ =>
        match denormObjProps entities rest efields with
        | .ok fs => .ok ((k, pv) :: fs)
        | .error e => .error e
termination_by (sizeOf props, 1, 0)

/-- The `entity.map(id => denormalizeEntity(id, schemaEntity.items))` loop of
the array branch. -/
def denormElems (entities : Store) (items : SchemaEntity) (xs : List Value) :
    Except DenormErr (List Value) :=
  match xs with
  | [] => .ok []
  | x :: t =>
    match denormalizeEntity entities x items with
    | .ok d =>
      match denormElems entities items t with
      | .ok ds => .ok (d :: ds)
      | .error e => .error e
    | .error e => .error e
termination_by (sizeOf items, 0, xs.length + 1)
end

/-- `denormalize(normalizedData, schema)` from
`src/denormalizers/denormalizer.ts` lines 4-55: pick the schema's first
entry as root; an array `result` is mapped elementwise through the ROOT
schema entity, a string/number `result` is dereferenced once, and any other
`result` is returned unchanged. -/
def denormalize (nd : NormalizedData) (sch : Schema) : Except DenormErr Value :=
  match sch with
  | [] => .error .emptySchema
  | (_, root) :: _ =>
    match nd.result with
    | .vArr ids =>
      match denormElems nd.entities root ids with
      | .ok ds => .ok (.vArr ds)
      | .error e => .error e
    | .vStr s => denormalizeEntity nd.entities (.vStr s) root
    | .vNum n => denormalizeEntity nd.entities (.vNum n) root
    | other => .ok other

/-- The string `type` tag a schema node carries in the source. -/
def schemaTypeTag : SchemaEntity → String
  | .obj _ _ _ => "object"
  | .arr _ _ => "array"
  | .str _ _ _ => "string"
  | .num _ _ => "number"
  | .bool => "boolean"
  | .custom _ => "custom"

/-- `denormalizePrimitive(value, schema)` from
`src/denormalizers/primitiveDenormalizer.ts`: an exact `typeof` check against
the schema's `type` tag (`if (typeof value !== schema.type) throw`), then the
value is returned unchanged — no other constraint is re-checked. -/
def denormalizePrimitive (v : Value) (s : SchemaEntity) : Except DenormErr Value :=
  if typeofValue v = schemaTypeTag s then .ok v
  else .error (.typeMismatchD (schemaTypeTag s) (typeofValue v))

/-! ### Association-list and store lemmas -/

theorem alookup_aupsert_self {α : Type} (m : List (String × α)) (k : String) (v : α) :
    alookup (aupsert m k v) k = some v := by
  induction m with
  | nil => simp [aupsert, alookup]
  | cons h t ih =>
    obtain ⟨k', v'⟩ := h
    by_cases hk : k' = k
    · simp [aupsert, hk, alookup]
    · simp [aupsert, hk, alookup, ih]

theorem alookup_aupsert_ne {α : Type} (m : List (String × α)) (k q : String) (v : α)
    (h : q ≠ k) : alookup (aupsert m k v) q = alookup m q := by
  induction m with
  | nil =>
    simp only [aupsert, alookup]
    rw [if_neg (fun hh => h hh.symm)]
  | cons hd t ih =>
    obtain ⟨k', v'⟩ := hd
    simp only [aupsert]
    by_cases hk : k' = k
    · subst hk
      simp only [if_pos rfl, alookup]
      rw [if_neg (fun hh => h hh.symm), if_neg (fun hh => h hh.symm)]
    · simp only [if_neg hk, alookup]
      by_cases hq : k' = q
      · rw [if_pos hq, if_pos hq]
      · rw [if_neg hq, if_neg hq, ih]

theorem alookup_isSome_aupsert {α : Type} (m : List (String × α)) (k q : String) (v : α)
    (h : (alookup m q).isSome) : (alookup (aupsert m k v) q).isSome := by
  by_cases hq : q = k
  · subst hq; simp [alookup_aupsert_self]
  · rwa [alookup_aupsert_ne m k q v hq]

theorem mem_aupsert {α : Type} (m : List (String × α)) (k : String) (v : α) :
    ∀ e ∈ aupsert m k v, e ∈ m ∨ e = (k, v) := by
  induction m with
  | nil => simp [aupsert]
  | cons hd t ih =>
    obtain ⟨k', v'⟩ := hd
    by_cases hk : k' = k
    · subst hk
      intro e he
      simp only [aupsert, if_pos rfl] at he
      rcases List.mem_cons.mp he with h1 | h2
      · exact Or.inr h1
      · exact Or.inl (List.mem_cons_of_mem _ h2)
    · intro e he
      simp only [aupsert, if_neg hk] at he
      rcases List.mem_cons.mp he with h1 | h2
      · exact Or.inl (h1 ▸ List.mem_cons_self _ _)
      · rcases ih e h2 with h3 | h4
        · exact Or.inl (List.mem_cons_of_mem _ h3)
        · exact Or.inr h4

theorem mem_keys_aupsert {α : Type} (m : List (String × α)) (k q : String) (v : α)
    (h : q ∈ (aupsert m k v).map Prod.fst) : q ∈ m.map Prod.fst ∨ q = k := by
  rcases List.mem_map.mp h with ⟨e, he, hq⟩
  rcases mem_aupsert m k v e he with h1 | h2
  · exact Or.inl (List.mem_map.mpr ⟨e, h1, hq⟩)
  · subst h2; exact Or.inr hq.symm

theorem keys_aupsert_nodup {α : Type} (m : List (String × α)) (k : String) (v : α)
    (h : (m.map Prod.fst).Nodup) : ((aupsert m k v).map Prod.fst).Nodup := by
  induction m with
  | nil => simp [aupsert]
  | cons hd t ih =>
    obtain ⟨k', v'⟩ := hd
    by_cases hk : k' = k
    · subst hk; simpa [aupsert] using h
    · simp only [aupsert, if_neg hk, List.map_cons, List.nodup_cons] at h ⊢
      refine ⟨?_, ih h.2⟩
      intro hmem
      rcases mem_keys_aupsert t k k' v hmem with h1 | h2
      · exact h.1 h1
      · exact hk h2

theorem alookup_mem {α : Type} (m : List (String × α)) (k : String) (v : α)
    (h : alookup m k = some v) : (k, v) ∈ m := by
  induction m with
  | nil => simp [alookup] at h
  | cons hd t ih =>
    obtain ⟨k', v'⟩ := hd
    by_cases hk : k' = k
    · subst hk
      simp only [alookup, if_true] at h
      exact Option.some_inj.mp h ▸ List.mem_cons_self _ _
    · simp only [alookup, hk, if_false] at h
      exact List.mem_cons_of_mem _ (ih h)

theorem alookup_eq_none_of_not_mem_keys {α : Type} (m : List (String × α)) (k : String)
    (h : k ∉ m.map Prod.fst) : alookup m k = none := by
  induction m with
  | nil => simp [alookup]
  | cons hd t ih =>
    obtain ⟨k', v'⟩ := hd
    simp only [List.map_cons, List.mem_cons] at h
    push_neg at h
    simp only [alookup]
    rw [if_neg (fun hh => h.1 hh.symm), ih h.2]

/-- With distinct keys, a present key has exactly one entry. -/
theorem count_key_of_nodup {α : Type} (m : List (String × α)) (k : String) (v : α)
    (hn : (m.map Prod.fst).Nodup) (h : alookup m k = some v) :
    (m.map Prod.fst).count k = 1 := by
  have hmem : k ∈ m.map Prod.fst := by
    have := alookup_mem m k v h
    exact List.mem_map.mpr ⟨(k, v), this, rfl⟩
  exact List.count_eq_one_of_mem hn hmem

/-- Well-formedness of a store: distinct partition names, and distinct id keys
within each partition.  The empty store of a fresh `normalize` call is
well-formed, and every engine write preserves this. -/
def StoreWF (σ : Store) : Prop :=
  (σ.map Prod.fst).Nodup ∧ ∀ e ∈ σ, (e.2.map Prod.fst).Nodup

theorem storeWF_nil : StoreWF [] := by simp [StoreWF]

theorem alookup_ensurePartition_self (σ : Store) (t : String) :
    alookup (ensurePartition σ t) t = some ((alookup σ t).getD []) := by
  unfold ensurePartition
  match h : alookup σ t with
  | some p => simp [h]
  | none => simp [h, alookup_aupsert_self]

theorem alookup_ensurePartition_isSome (σ : Store) (t q : String)
    (h : (alookup σ q).isSome) : (alookup (ensurePartition σ t) q).isSome := by
  unfold ensurePartition
  match hh : alookup σ t with
  | some p => simpa [hh] using h
  | none => exact alookup_isSome_aupsert σ t q [] h

theorem storeWF_ensurePartition (σ : Store) (t : String) (h : StoreWF σ) :
    StoreWF (ensurePartition σ t) := by
  unfold ensurePartition
  match hh : alookup σ t with
  | some p => simpa [hh] using h
  | none =>
    simp only [hh]
    refine ⟨keys_aupsert_nodup σ t [] h.1, ?_⟩
    intro e he
    rcases mem_aupsert σ t [] e he with h1 | h2
    · exact h.2 e h1
    · subst h2; simp

/-- Partition-level lookup `entities[t][k]`. -/
def partLookup (σ : Store) (t k : String) : Option Value :=
  match alookup σ t with
  | some p => alookup p k
  | none => none

theorem alookup_storeWrite_self (σ : Store) (t k : String) (v : Value) :
    alookup (storeWrite σ t k v) t =
      some (aupsert ((alookup σ t).getD []) k v) := by
  unfold storeWrite
  match h : alookup σ t with
  | some p => simp [h, alookup_aupsert_self]
  | none => simp [h, alookup_aupsert_self, aupsert]

theorem partLookup_storeWrite_self (σ : Store) (t k : String) (v : Value) :
    partLookup (storeWrite σ t k v) t k = some v := by
  unfold partLookup
  rw [alookup_storeWrite_self]
  exact alookup_aupsert_self _ k v

theorem alookup_storeWrite_isSome (σ : Store) (t k : String) (v : Value) (q : String)
    (h : (alookup σ q).isSome) : (alookup (storeWrite σ t k v) q).isSome := by
  unfold storeWrite
  match hh : alookup σ t with
  | some p => exact alookup_isSome_aupsert σ t q _ h
  | none => exact alookup_isSome_aupsert σ t q _ h

theorem storeWF_storeWrite (σ : Store) (t k : String) (v : Value) (h : StoreWF σ) :
    StoreWF (storeWrite σ t k v) := by
  unfold storeWrite
  match hh : alookup σ t with
  | some p =>
    refine ⟨keys_aupsert_nodup σ t _ h.1, ?_⟩
    intro e he
    rcases mem_aupsert σ t _ e he with h1 | h2
    · exact h.2 e h1
    · subst h2
      exact keys_aupsert_nodup p k v (h.2 (t, p) (alookup_mem σ t p hh))
  | none =>
    refine ⟨keys_aupsert_nodup σ t _ h.1, ?_⟩
    intro e he
    rcases mem_aupsert σ t _ e he with h1 | h2
    · exact h.2 e h1
    · subst h2; simp

/-- The ways one engine call may extend the store: partition creation and
id-keyed writes, in some order.  No operation ever deletes. -/
inductive StoreEvolves : Store → Store → Prop
  | refl (σ : Store) : StoreEvolves σ σ
  | ensure (σ σ' : Store) (t : String) :
      StoreEvolves σ σ' → StoreEvolves σ (ensurePartition σ' t)
  | write (σ σ' : Store) (t k : String) (v : Value) :
      StoreEvolves σ σ' → StoreEvolves σ (storeWrite σ' t k v)

theorem StoreEvolves.trans {σ₁ σ₂ σ₃ : Store}
    (h₁ : StoreEvolves σ₁ σ₂) (h₂ : StoreEvolves σ₂ σ₃) : StoreEvolves σ₁ σ₃ := by
  induction h₂ with
  | refl => exact h₁
  | ensure σ' t prem ih => exact .ensure _ _ t ih
  | write σ' t k v prem ih => exact .write _ _ t k v ih

theorem StoreEvolves.keys_mono {σ σ' : Store} (h : StoreEvolves σ σ') (t : String)
    (hs : (alookup σ t).isSome) : (alookup σ' t).isSome := by
  induction h with
  | refl => exact hs
  | ensure σ₁ u prem ih => exact alookup_ensurePartition_isSome σ₁ u t ih
  | write σ₁ u k v prem ih => exact alookup_storeWrite_isSome σ₁ u k v t ih

theorem StoreEvolves.wf {σ σ' : Store} (h : StoreEvolves σ σ') (hw : StoreWF σ) :
    StoreWF σ' := by
  induction h with
  | refl => exact hw
  | ensure σ₁ u prem ih => exact storeWF_ensurePartition σ₁ u ih
  | write σ₁ u k v prem ih => exact storeWF_storeWrite σ₁ u k v ih

theorem writeCustomPairs_evolves (t : String) :
    ∀ (pairs : List (Value × Value)) (σ σ' : Store),
      writeCustomPairs t pairs σ = .ok σ' → StoreEvolves σ σ'
  | [], σ, σ', h => by
      simp only [writeCustomPairs] at h
      exact (Except.ok.injEq _ _ ▸ h : σ = σ') ▸ .refl σ
  | (id, x) :: rest, σ, σ', h => by
      simp only [writeCustomPairs] at h
      by_cases hid : isEntityID id
      · rw [if_pos hid] at h
        exact (StoreEvolves.write σ σ t (jsToString id) x (.refl σ)).trans
          (writeCustomPairs_evolves t rest _ σ' h)
      · rw [if_neg hid] at h
        exact absurd h (by simp)

theorem normalizeCustomEntity_evolves (reg : Registry) (v : Value) (nm : Option String)
    (σ : Store) (r : Value) (σ' : Store)
    (h : normalizeCustomEntity reg v nm σ = .ok (r, σ')) : StoreEvolves σ σ' := by
  unfold normalizeCustomEntity at h
  split at h
  · simp at h
  · split at h
    · simp at h
    · split at h
      · simp at h
      · dsimp only at h
        split at h
        · split at h
          · split at h
            · simp at h
            · split at h
              · simp at h
              · split at h
                · rename_i σ₂ heq
                  simp only [Except.ok.injEq, Prod.mk.injEq] at h
                  obtain ⟨h1, h2⟩ := h
                  subst h2
                  exact (StoreEvolves.ensure σ σ _ (.refl σ)).trans
                    (writeCustomPairs_evolves _ _ _ _ heq)
                · simp at h
          · simp at h
        · split at h
          · simp at h
          · split at h
            · simp at h
            · simp only [Except.ok.injEq, Prod.mk.injEq] at h
              obtain ⟨h1, h2⟩ := h
              subst h2
              exact .write _ _ _ _ _ (.ensure _ _ _ (.refl σ))

/-- Every successful normalization step only grows the store through partition
creations and id-keyed writes. -/
theorem normalizeEntity_evolves (reg : Registry) (cr : String → Option (String → Bool))
    (s : SchemaEntity) (v : Value) (σ : Store) :
    ∀ r σ', normalizeEntity reg cr s v σ = .ok (r, σ') → StoreEvolves σ σ' := by
  apply normalizeEntity.induct reg cr
    (fun s v σ => ∀ r σ', normalizeEntity reg cr s v σ = .ok (r, σ') → StoreEvolves σ σ')
    (fun v items σ => ∀ r σ', normalizeArray reg cr v items σ = .ok (r, σ') → StoreEvolves σ σ')
    (fun items xs i σ => ∀ rs σ', normalizeItems reg cr items xs i σ = .ok (rs, σ') → StoreEvolves σ σ')
    (fun v nm props req σ => ∀ r σ', normalizeObject reg cr v nm props req σ = .ok (r, σ') → StoreEvolves σ σ')
    (fun props fields en idv req σ => ∀ fs σ', normalizePropsChecked reg cr props fields en idv req σ = .ok (fs, σ') → StoreEvolves σ σ')
    (fun props fields σ => ∀ fs σ', normalizePropsInline reg cr props fields σ = .ok (fs, σ') → StoreEvolves σ σ')
  · intro v σ nm r σ' h
    simp only [normalizeEntity] at h
    exact normalizeCustomEntity_evolves reg v nm σ r σ' h
  · intro v σ nm props req ih r σ' h
    simp only [normalizeEntity] at h
    exact ih r σ' h
  · intro v σ nm items ih r σ' h
    simp only [normalizeEntity] at h
    exact ih r σ' h
  · intro v σ minL maxL pat r0 h0 r σ' h
    simp only [normalizeEntity] at h
    rw [h0] at h
    simp only [Except.ok.injEq, Prod.mk.injEq] at h
    exact h.2 ▸ .refl σ
  · intro v σ minL maxL pat e h0 r σ' h
    simp only [normalizeEntity] at h
    rw [h0] at h
    simp at h
  · intro v σ mi ma r0 h0 r σ' h
    simp only [normalizeEntity] at h
    rw [h0] at h
    simp only [Except.ok.injEq, Prod.mk.injEq] at h
    exact h.2 ▸ .refl σ
  · intro v σ mi ma e h0 r σ' h
    simp only [normalizeEntity] at h
    rw [h0] at h
    simp at h
  · intro v σ r0 h0 r σ' h
    simp only [normalizeEntity] at h
    rw [h0] at h
    simp only [Except.ok.injEq, Prod.mk.injEq] at h
    exact h.2 ▸ .refl σ
  · intro v σ e h0 r σ' h
    simp only [normalizeEntity] at h
    rw [h0] at h
    simp at h
  · intro items σ ids rs σ'0 hitems ih r σ' h
    simp only [normalizeArray] at h
    rw [hitems] at h
    simp only [Except.ok.injEq, Prod.mk.injEq] at h
    exact h.2 ▸ ih rs σ'0 hitems
  · intro items σ ids e hitems ih r σ' h
    simp only [normalizeArray] at h
    rw [hitems] at h
    simp at h
  · intro v items σ hnv r σ' h
    cases v with
    | vArr ids => exact absurd rfl (hnv ids)
    | vStr s => simp [normalizeArray] at h
    | vNum n => simp [normalizeArray] at h
    | vBool b => simp [normalizeArray] at h
    | vObj fs => simp [normalizeArray] at h
  · intro items i σ rs σ' h
    simp only [normalizeItems] at h
    simp only [Except.ok.injEq, Prod.mk.injEq] at h
    exact h.2 ▸ .refl σ
  · intro items i σ x t σ₁ ids hx ih rs σ' h
    simp only [normalizeItems] at h
    rw [hx] at h
    simp at h
  · intro items i σ x t r σ₁ hx hnid hnarr ih rs σ' h
    simp only [normalizeItems] at h
    rw [hx] at h
    cases r with
    | vArr ids => exact absurd rfl (hnarr ids)
    | vStr s => exact absurd rfl hnid
    | vNum n => exact absurd rfl hnid
    | vBool b => simp [isEntityID] at h
    | vObj fs => simp [isEntityID] at h
  · intro items i σ x t r σ₁ hx hnn rs0 σ'0 hrest hnarr ih1 ih2 rs σ' h
    simp only [normalizeItems] at h
    rw [hx] at h
    cases r with
    | vArr ids => exact absurd rfl (hnarr ids)
    | vStr s =>
      simp only [if_neg hnn, hrest, Except.ok.injEq, Prod.mk.injEq] at h
      exact h.2 ▸ (ih1 _ σ₁ hx).trans (ih2 rs0 σ'0 hrest)
    | vNum n =>
      simp only [if_neg hnn, hrest, Except.ok.injEq, Prod.mk.injEq] at h
      exact h.2 ▸ (ih1 _ σ₁ hx).trans (ih2 rs0 σ'0 hrest)
    | vBool b =>
      simp only [if_neg hnn, hrest, Except.ok.injEq, Prod.mk.injEq] at h
      exact h.2 ▸ (ih1 _ σ₁ hx).trans (ih2 rs0 σ'0 hrest)
    | vObj fs =>
      simp only [if_neg hnn, hrest, Except.ok.injEq, Prod.mk.injEq] at h
      exact h.2 ▸ (ih1 _ σ₁ hx).trans (ih2 rs0 σ'0 hrest)
  · intro items i σ x t r σ₁ hx hnn e hrest hnarr ih1 ih2 rs σ' h
    simp only [normalizeItems] at h
    rw [hx] at h
    cases r with
    | vArr ids => exact absurd rfl (hnarr ids)
    | vStr s => simp [isEntityID, hrest] at h
    | vNum n => simp [isEntityID, hrest] at h
    | vBool b => simp [isEntityID, hrest] at h
    | vObj fs => simp [isEntityID, hrest] at h
  · intro items i σ x t e hx ih rs σ' h
    simp only [normalizeItems] at h
    rw [hx] at h
    simp at h
  · intro nm props req σ fields entityName σ₀ hid fs0 σ'0 hinline ih r σ' h
    simp only [normalizeObject] at h
    rw [hid] at h
    dsimp only at h
    split at h
    · rename_i fs₂ σ₂ hq
      simp only [Except.ok.injEq, Prod.mk.injEq] at h
      exact h.2 ▸ (StoreEvolves.ensure σ σ (entityNameOf nm) (.refl σ)).trans (ih fs₂ σ₂ hq)
    · simp at h
  · intro nm props req σ fields entityName σ₀ hid e hinline ih r σ' h
    simp only [normalizeObject] at h
    rw [hid] at h
    dsimp only at h
    split at h
    · rename_i fs₂ σ₂ hq
      simp only [Except.ok.injEq, Prod.mk.injEq] at h
      exact h.2 ▸ (StoreEvolves.ensure σ σ (entityNameOf nm) (.refl σ)).trans (ih fs₂ σ₂ hq)
    · simp at h
  · intro nm props req σ fields entityName σ₀ idv hid fs0 σ'0 hchk ih r σ' h
    simp only [normalizeObject] at h
    rw [hid] at h
    dsimp only at h
    split at h
    · rename_i fs₂ σ₂ hq
      simp only [Except.ok.injEq, Prod.mk.injEq] at h
      exact h.2 ▸ .write _ _ _ _ _
        ((StoreEvolves.ensure σ σ (entityNameOf nm) (.refl σ)).trans (ih fs₂ σ₂ hq))
    · simp at h
  · intro nm props req σ fields entityName σ₀ idv hid e hchk ih r σ' h
    simp only [normalizeObject] at h
    rw [hid] at h
    dsimp only at h
    split at h
    · rename_i fs₂ σ₂ hq
      simp only [Except.ok.injEq, Prod.mk.injEq] at h
      exact h.2 ▸ .write _ _ _ _ _
        ((StoreEvolves.ensure σ σ (entityNameOf nm) (.refl σ)).trans (ih fs₂ σ₂ hq))
    · simp at h
  · intro v nm props req σ hnv r σ' h
    cases v with
    | vObj fields => exact absurd rfl (hnv fields)
    | vStr s => simp [normalizeObject] at h
    | vNum n => simp [normalizeObject] at h
    | vBool b => simp [normalizeObject] at h
    | vArr xs => simp [normalizeObject] at h
  · intro fields entityName idv req σ fs σ' h
    simp only [normalizePropsChecked] at h
    simp only [Except.ok.injEq, Prod.mk.injEq] at h
    exact h.2 ▸ .refl σ
  · intro fields entityName idv req σ k sk rest fv hk r σ₁ hx fs0 σ'0 hrest ih1 ih2 fs σ' h
    simp only [normalizePropsChecked, hk, hx, hrest, Except.ok.injEq, Prod.mk.injEq] at h
    exact h.2 ▸ (ih1 r σ₁ hx).trans (ih2 fs0 σ'0 hrest)
  · intro fields entityName idv req σ k sk rest fv hk r σ₁ hx e hrest ih1 ih2 fs σ' h
    simp [normalizePropsChecked, hk, hx, hrest] at h
  · intro fields entityName idv req σ k sk rest fv hk e hx ih fs σ' h
    simp [normalizePropsChecked, hk, hx] at h
  · intro fields entityName idv req σ k sk rest hk hkin fs σ' h
    simp [normalizePropsChecked, hk, if_pos hkin] at h
  · intro fields entityName idv req σ k sk rest hk hkout ih fs σ' h
    simp only [normalizePropsChecked, hk, if_neg hkout] at h
    exact ih fs σ' h
  · intro fields σ fs σ' h
    simp only [normalizePropsInline] at h
    simp only [Except.ok.injEq, Prod.mk.injEq] at h
    exact h.2 ▸ .refl σ
  · intro fields σ k sk rest fv hk r σ₁ hx fs0 σ'0 hrest ih1 ih2 fs σ' h
    simp only [normalizePropsInline, hk, hx, hrest, Except.ok.injEq, Prod.mk.injEq] at h
    exact h.2 ▸ (ih1 r σ₁ hx).trans (ih2 fs0 σ'0 hrest)
  · intro fields σ k sk rest fv hk r σ₁ hx e hrest ih1 ih2 fs σ' h
    simp [normalizePropsInline, hk, hx, hrest] at h
  · intro fields σ k sk rest fv hk e hx ih fs σ' h
    simp [normalizePropsInline, hk, hx] at h
  · intro fields σ k sk rest hk ih fs σ' h
    simp only [normalizePropsInline, hk] at h
    exact ih fs σ' h

/-- A successful normalization step preserves the presence of every store
partition (partitions are never deleted). -/
theorem normalizeEntity_partition_mono (reg : Registry) (cr : String → Option (String → Bool))
    (s : SchemaEntity) (v : Value) (σ : Store) (r : Value) (σ' : Store)
    (h : normalizeEntity reg cr s v σ = .ok (r, σ')) (t : String)
    (hp : (alookup σ t).isSome) : (alookup σ' t).isSome :=
  (normalizeEntity_evolves reg cr s v σ r σ' h).keys_mono t hp

/-- A successful normalization step preserves store well-formedness. -/
theorem normalizeEntity_wf (reg : Registry) (cr : String → Option (String → Bool))
    (s : SchemaEntity) (v : Value) (σ : Store) (r : Value) (σ' : Store)
    (h : normalizeEntity reg cr s v σ = .ok (r, σ')) (hw : StoreWF σ) : StoreWF σ' :=
  (normalizeEntity_evolves reg cr s v σ r σ' h).wf hw

/-- Processing a concatenation of array elements processes the prefix first,
then the suffix from the prefix's final store. -/
theorem normalizeItems_append (reg : Registry) (cr : String → Option (String → Bool))
    (items : SchemaEntity) :
    ∀ (l₁ l₂ : List Value) (i : Nat) (σ : Store),
      normalizeItems reg cr items (l₁ ++ l₂) i σ =
        match normalizeItems reg cr items l₁ i σ with
        | .ok (rs₁, σ₁) =>
          match normalizeItems reg cr items l₂ (i + l₁.length) σ₁ with
          | .ok (rs₂, σ₂) => .ok (rs₁ ++ rs₂, σ₂)
          | .error e => .error e
        | .error e => .error e
  | [], l₂, i, σ => by
      simp only [List.nil_append, List.length_nil, Nat.add_zero, normalizeItems]
      match h : normalizeItems reg cr items l₂ i σ with
      | .ok (rs₂, σ₂) => simp
      | .error e => simp
  | x :: t, l₂, i, σ => by
      simp only [List.cons_append, normalizeItems]
      match hx : normalizeEntity reg cr items x σ with
      | .error e => simp
      | .ok (r, σ₁) =>
        cases r with
        | vArr ids => simp
        | vStr sv =>
          simp only
          rw [normalizeItems_append reg cr items t l₂ (i + 1) σ₁]
          match ht : normalizeItems reg cr items t (i + 1) σ₁ with
          | .error e => simp [isEntityID, ht]
          | .ok (rs₁, σ₂) =>
            simp only [List.length_cons]
            have : i + 1 + t.length = i + (t.length + 1) := by omega
            rw [this]
            match h₂ : normalizeItems reg cr items l₂ (i + (t.length + 1)) σ₂ with
            | .ok (rs₂, σ₃) => simp [isEntityID, ht, h₂]
            | .error e => simp [isEntityID, ht, h₂]
        | vNum n =>
          simp only
          rw [normalizeItems_append reg cr items t l₂ (i + 1) σ₁]
          match ht : normalizeItems reg cr items t (i + 1) σ₁ with
          | .error e => simp [isEntityID, ht]
          | .ok (rs₁, σ₂) =>
            simp only [List.length_cons]
            have : i + 1 + t.length = i + (t.length + 1) := by omega
            rw [this]
            match h₂ : normalizeItems reg cr items l₂ (i + (t.length + 1)) σ₂ with
            | .ok (rs₂, σ₃) => simp [isEntityID, ht, h₂]
            | .error e => simp [isEntityID, ht, h₂]
        | vBool b => simp [isEntityID]
        | vObj fs => simp [isEntityID]

/-- Processing a concatenation of declared properties (id branch) processes
the prefix first, then the suffix from the prefix's final store. -/
theorem normalizePropsChecked_append (reg : Registry) (cr : String → Option (String → Bool))
    (fields : List (String × Value)) (en : String) (idv : Value) (req : Option (List String)) :
    ∀ (p₁ p₂ : List (String × SchemaEntity)) (σ : Store),
      normalizePropsChecked reg cr (p₁ ++ p₂) fields en idv req σ =
        match normalizePropsChecked reg cr p₁ fields en idv req σ with
        | .ok (fs₁, σ₁) =>
          match normalizePropsChecked reg cr p₂ fields en idv req σ₁ with
          | .ok (fs₂, σ₂) => .ok (fs₁ ++ fs₂, σ₂)
          | .error e => .error e
        | .error e => .error e
  | [], p₂, σ => by
      simp only [List.nil_append, normalizePropsChecked]
      match h : normalizePropsChecked reg cr p₂ fields en idv req σ with
      | .ok (fs₂, σ₂) => simp
      | .error e => simp
  | (k, sk) :: rest, p₂, σ => by
      simp only [List.cons_append, normalizePropsChecked]
      match hk : alookup fields k with
      | some fv =>
        match hx : normalizeEntity reg cr sk fv σ with
        | .error e => simp [hk, hx]
        | .ok (r, σ₁) =>
          simp only [hk, hx]
          rw [normalizePropsChecked_append reg cr fields en idv req rest p₂ σ₁]
          match ht : normalizePropsChecked reg cr rest fields en idv req σ₁ with
          | .error e => simp [ht]
          | .ok (fs₁, σ₂) =>
            match h₂ : normalizePropsChecked reg cr p₂ fields en idv req σ₂ with
            | .ok (fs₂, σ₃) => simp [ht, h₂]
            | .error e => simp [ht, h₂]
      | none =>
        by_cases hreq : requiredContains req k
        · simp [hreq]
        · simp only [hreq, Bool.false_eq_true, if_false]
          rw [normalizePropsChecked_append reg cr fields en idv req rest p₂ σ]

/-- Every successfully normalized array maps elementwise, in order, to
EntityID results of normalizing the corresponding input element. -/
theorem normalizeItems_sound (reg : Registry) (cr : String → Option (String → Bool))
    (items : SchemaEntity) :
    ∀ (xs : List Value) (i : Nat) (σ : Store) (rs : List Value) (σ' : Store),
      normalizeItems reg cr items xs i σ = .ok (rs, σ') →
      List.Forall₂ (fun x r => isEntityID r = true ∧
        ∃ σa σb, normalizeEntity reg cr items x σa = .ok (r, σb)) xs rs
  | [], i, σ, rs, σ', h => by
      simp only [normalizeItems, Except.ok.injEq, Prod.mk.injEq] at h
      rw [← h.1]
      exact List.Forall₂.nil
  | x :: t, i, σ, rs, σ', h => by
      simp only [normalizeItems] at h
      match hx : normalizeEntity reg cr items x σ with
      | .error e => rw [hx] at h; simp at h
      | .ok (r, σ₁) =>
        rw [hx] at h
        cases r with
        | vArr ids => simp at h
        | vBool b => simp [isEntityID] at h
        | vObj fs => simp [isEntityID] at h
        | vStr sv =>
          dsimp only at h
          rw [if_neg (show ¬¬isEntityID (Value.vStr sv) = true by simp [isEntityID])] at h
          match ht : normalizeItems reg cr items t (i + 1) σ₁ with
          | .error e => rw [ht] at h; simp at h
          | .ok (rs₂, σ₂) =>
            rw [ht] at h
            simp only [Except.ok.injEq, Prod.mk.injEq] at h
            rw [← h.1]
            exact List.Forall₂.cons ⟨rfl, σ, σ₁, hx⟩
              (normalizeItems_sound reg cr items t (i + 1) σ₁ rs₂ σ₂ ht)
        | vNum n =>
          dsimp only at h
          rw [if_neg (show ¬¬isEntityID (Value.vNum n) = true by simp [isEntityID])] at h
          match ht : normalizeItems reg cr items t (i + 1) σ₁ with
          | .error e => rw [ht] at h; simp at h
          | .ok (rs₂, σ₂) =>
            rw [ht] at h
            simp only [Except.ok.injEq, Prod.mk.injEq] at h
            rw [← h.1]
            exact List.Forall₂.cons ⟨rfl, σ, σ₁, hx⟩
              (normalizeItems_sound reg cr items t (i + 1) σ₁ rs₂ σ₂ ht)

/-- Unfolding of `normalizeObject` on an actual (non-array) object. -/
theorem normalizeObject_vObj (reg : Registry) (cr : String → Option (String → Bool))
    (fields : List (String × Value)) (nm : Option String)
    (props : List (String × SchemaEntity)) (req : Option (List String)) (σ : Store) :
    normalizeObject reg cr (.vObj fields) nm props req σ =
      match alookup fields "id" with
      | none =>
        match normalizePropsInline reg cr props fields (ensurePartition σ (entityNameOf nm)) with
        | .ok (fs, σ') => .ok (.vObj fs, σ')
        | .error e => .error e
      | some idv =>
        match normalizePropsChecked reg cr props fields (entityNameOf nm) idv req
            (ensurePartition σ (entityNameOf nm)) with
        | .ok (fs, σ₁) => .ok (idv, storeWrite σ₁ (entityNameOf nm) (jsToString idv) (.vObj fs))
        | .error e => .error e := by
  simp only [normalizeObject]

/-- Unfolding of `normalizeObject` on an object that carries an `id`. -/
theorem normalizeObject_vObj_id (reg : Registry) (cr : String → Option (String → Bool))
    (fields : List (String × Value)) (nm : Option String)
    (props : List (String × SchemaEntity)) (req : Option (List String)) (σ : Store)
    (idv : Value) (hid : alookup fields "id" = some idv) :
    normalizeObject reg cr (.vObj fields) nm props req σ =
      match normalizePropsChecked reg cr props fields (entityNameOf nm) idv req
          (ensurePartition σ (entityNameOf nm)) with
      | .ok (fs, σ₁) => .ok (idv, storeWrite σ₁ (entityNameOf nm) (jsToString idv) (.vObj fs))
      | .error e => .error e := by
  rw [normalizeObject_vObj, hid]

/-- Unfolding of `normalizeObject` on an object without an `id`. -/
theorem normalizeObject_vObj_noid (reg : Registry) (cr : String → Option (String → Bool))
    (fields : List (String × Value)) (nm : Option String)
    (props : List (String × SchemaEntity)) (req : Option (List String)) (σ : Store)
    (hid : alookup fields "id" = none) :
    normalizeObject reg cr (.vObj fields) nm props req σ =
      match normalizePropsInline reg cr props fields (ensurePartition σ (entityNameOf nm)) with
      | .ok (fs, σ') => .ok (.vObj fs, σ')
      | .error e => .error e := by
  rw [normalizeObject_vObj, hid]

/-- The inline property loop returns exactly the declared properties that are
present on the entity, in declaration order. -/
theorem normalizePropsInline_keys (reg : Registry) (cr : String → Option (String → Bool)) :
    ∀ (props : List (String × SchemaEntity)) (fields : List (String × Value))
      (σ : Store) (fs : List (String × Value)) (σ' : Store),
      normalizePropsInline reg cr props fields σ = .ok (fs, σ') →
      fs.map Prod.fst = (props.map Prod.fst).filter (fun k => (alookup fields k).isSome)
  | [], fields, σ, fs, σ', h => by
      simp only [normalizePropsInline, Except.ok.injEq, Prod.mk.injEq] at h
      rw [← h.1]
      simp
  | (k, sk) :: rest, fields, σ, fs, σ', h => by
      simp only [normalizePropsInline] at h
      match hk : alookup fields k with
      | some fv =>
        rw [hk] at h
        dsimp only at h
        match hx : normalizeEntity reg cr sk fv σ with
        | .error e => rw [hx] at h; simp at h
        | .ok (r, σ₁) =>
          rw [hx] at h
          dsimp only at h
          match ht : normalizePropsInline reg cr rest fields σ₁ with
          | .error e => rw [ht] at h; simp at h
          | .ok (fs₂, σ₂) =>
            rw [ht] at h
            simp only [Except.ok.injEq, Prod.mk.injEq] at h
            rw [← h.1]
            simp only [List.map_cons, List.filter_cons, hk, Option.isSome_some, if_pos]
            rw [normalizePropsInline_keys reg cr rest fields σ₁ fs₂ σ₂ ht]
      | none =>
        rw [hk] at h
        have := normalizePropsInline_keys reg cr rest fields σ fs σ' h
        simp only [List.map_cons, List.filter_cons, hk, Option.isSome_none]
        simpa using this

/-- The id-branch property loop returns exactly the declared properties that
are present on the entity, in declaration order. -/
theorem normalizePropsChecked_keys (reg : Registry) (cr : String → Option (String → Bool))
    (en : String) (idv : Value) (req : Option (List String)) :
    ∀ (props : List (String × SchemaEntity)) (fields : List (String × Value))
      (σ : Store) (fs : List (String × Value)) (σ' : Store),
      normalizePropsChecked reg cr props fields en idv req σ = .ok (fs, σ') →
      fs.map Prod.fst = (props.map Prod.fst).filter (fun k => (alookup fields k).isSome)
  | [], fields, σ, fs, σ', h => by
      simp only [normalizePropsChecked, Except.ok.injEq, Prod.mk.injEq] at h
      rw [← h.1]
      simp
  | (k, sk) :: rest, fields, σ, fs, σ', h => by
      simp only [normalizePropsChecked] at h
      match hk : alookup fields k with
      | some fv =>
        rw [hk] at h
        dsimp only at h
        match hx : normalizeEntity reg cr sk fv σ with
        | .error e => rw [hx] at h; simp at h
        | .ok (r, σ₁) =>
          rw [hx] at h
          dsimp only at h
          match ht : normalizePropsChecked reg cr rest fields en idv req σ₁ with
          | .error e => rw [ht] at h; simp at h
          | .ok (fs₂, σ₂) =>
            rw [ht] at h
            simp only [Except.ok.injEq, Prod.mk.injEq] at h
            rw [← h.1]
            simp only [List.map_cons, List.filter_cons, hk, Option.isSome_some, if_pos]
            rw [normalizePropsChecked_keys reg cr en idv req rest fields σ₁ fs₂ σ₂ ht]
      | none =>
        rw [hk] at h
        by_cases hreq : requiredContains req k
        · rw [if_pos hreq] at h; simp at h
        · rw [if_neg hreq] at h
          have := normalizePropsChecked_keys reg cr en idv req rest fields σ fs σ' h
          simp only [List.map_cons, List.filter_cons, hk, Option.isSome_none]
          simpa using this

/-- Each entry the inline property loop produces carries the key of the
corresponding declared present property, and its value is the result of
recursively normalizing that property's value, in declaration order. -/
theorem normalizePropsInline_entries (reg : Registry) (cr : String → Option (String → Bool)) :
    ∀ (props : List (String × SchemaEntity)) (fields : List (String × Value))
      (σ : Store) (fs : List (String × Value)) (σ' : Store),
      normalizePropsInline reg cr props fields σ = .ok (fs, σ') →
      List.Forall₂ (fun (p : String × SchemaEntity) (e : String × Value) =>
          e.1 = p.1 ∧ ∃ fv σa σb, alookup fields p.1 = some fv ∧
            normalizeEntity reg cr p.2 fv σa = .ok (e.2, σb))
        (props.filter (fun p => (alookup fields p.1).isSome)) fs
  | [], fields, σ, fs, σ', h => by
      simp only [normalizePropsInline, Except.ok.injEq, Prod.mk.injEq] at h
      rw [← h.1]
      simp
  | (k, sk) :: rest, fields, σ, fs, σ', h => by
      simp only [normalizePropsInline] at h
      match hk : alookup fields k with
      | some fv =>
        rw [hk] at h
        dsimp only at h
        match hx : normalizeEntity reg cr sk fv σ with
        | .error e => rw [hx] at h; simp at h
        | .ok (r, σ₁) =>
          rw [hx] at h
          dsimp only at h
          match ht : normalizePropsInline reg cr rest fields σ₁ with
          | .error e => rw [ht] at h; simp at h
          | .ok (fs₂, σ₂) =>
            rw [ht] at h
            simp only [Except.ok.injEq, Prod.mk.injEq] at h
            rw [← h.1]
            simp only [List.filter_cons, hk, Option.isSome_some, if_pos]
            exact List.Forall₂.cons ⟨rfl, fv, σ, σ₁, hk, hx⟩
              (normalizePropsInline_entries reg cr rest fields σ₁ fs₂ σ₂ ht)
      | none =>
        rw [hk] at h
        have := normalizePropsInline_entries reg cr rest fields σ fs σ' h
        simp only [List.filter_cons, hk, Option.isSome_none]
        simpa using this

/-- A schema node whose `type` tag is a primitive. -/
def isPrimNode : SchemaEntity → Bool
  | .str _ _ _ => true
  | .num _ _ => true
  | .bool => true
  | _ => false

/-- Normalizing under a primitive schema never touches the store. -/
theorem normalizeEntity_prim_store (reg : Registry) (cr : String → Option (String → Bool))
    (s : SchemaEntity) (v : Value) (σ : Store) (r : Value) (σ' : Store)
    (hp : isPrimNode s = true)
    (h : normalizeEntity reg cr s v σ = .ok (r, σ')) : σ' = σ := by
  cases s with
  | obj nm props req => simp [isPrimNode] at hp
  | arr nm items => simp [isPrimNode] at hp
  | custom nm => simp [isPrimNode] at hp
  | str minL maxL pat =>
    simp only [normalizeEntity] at h
    match hq : normalizePrimitive cr v (.str minL maxL pat) with
    | .ok r₀ => rw [hq] at h; simp only [Except.ok.injEq, Prod.mk.injEq] at h; exact h.2.symm
    | .error e => rw [hq] at h; simp at h
  | num mi ma =>
    simp only [normalizeEntity] at h
    match hq : normalizePrimitive cr v (.num mi ma) with
    | .ok r₀ => rw [hq] at h; simp only [Except.ok.injEq, Prod.mk.injEq] at h; exact h.2.symm
    | .error e => rw [hq] at h; simp at h
  | bool =>
    simp only [normalizeEntity] at h
    match hq : normalizePrimitive cr v .bool with
    | .ok r₀ => rw [hq] at h; simp only [Except.ok.injEq, Prod.mk.injEq] at h; exact h.2.symm
    | .error e => rw [hq] at h; simp at h

/-- The inline property loop leaves the store unchanged when every declared
property has a primitive schema. -/
theorem normalizePropsInline_prim_store (reg : Registry) (cr : String → Option (String → Bool)) :
    ∀ (props : List (String × SchemaEntity)) (fields : List (String × Value))
      (σ : Store) (fs : List (String × Value)) (σ' : Store),
      (∀ p ∈ props, isPrimNode p.2 = true) →
      normalizePropsInline reg cr props fields σ = .ok (fs, σ') → σ' = σ
  | [], fields, σ, fs, σ', hp, h => by
      simp only [normalizePropsInline, Except.ok.injEq, Prod.mk.injEq] at h
      exact h.2.symm
  | (k, sk) :: rest, fields, σ, fs, σ', hp, h => by
      simp only [normalizePropsInline] at h
      match hk : alookup fields k with
      | some fv =>
        rw [hk] at h
        dsimp only at h
        match hx : normalizeEntity reg cr sk fv σ with
        | .error e => rw [hx] at h; simp at h
        | .ok (r, σ₁) =>
          rw [hx] at h
          dsimp only at h
          have hσ₁ : σ₁ = σ :=
            normalizeEntity_prim_store reg cr sk fv σ r σ₁
              (hp (k, sk) (List.mem_cons_self _ _)) hx
          match ht : normalizePropsInline reg cr rest fields σ₁ with
          | .error e => rw [ht] at h; simp at h
          | .ok (fs₂, σ₂) =>
            rw [ht] at h
            simp only [Except.ok.injEq, Prod.mk.injEq] at h
            have := normalizePropsInline_prim_store reg cr rest fields σ₁ fs₂ σ₂
              (fun p hpmem => hp p (List.mem_cons_of_mem _ hpmem)) ht
            rw [← h.2, this, hσ₁]
      | none =>
        rw [hk] at h
        exact normalizePropsInline_prim_store reg cr rest fields σ fs σ'
          (fun p hpmem => hp p (List.mem_cons_of_mem _ hpmem)) h


/-- The inline property loop only grows the store. -/
theorem normalizePropsInline_evolves (reg : Registry) (cr : String → Option (String → Bool)) :
    ∀ (props : List (String × SchemaEntity)) (fields : List (String × Value))
      (σ : Store) (fs : List (String × Value)) (σ' : Store),
      normalizePropsInline reg cr props fields σ = .ok (fs, σ') → StoreEvolves σ σ'
  | [], fields, σ, fs, σ', h => by
      simp only [normalizePropsInline, Except.ok.injEq, Prod.mk.injEq] at h
      exact h.2 ▸ .refl σ
  | (k, sk) :: rest, fields, σ, fs, σ', h => by
      simp only [normalizePropsInline] at h
      match hk : alookup fields k with
      | some fv =>
        rw [hk] at h
        dsimp only at h
        match hx : normalizeEntity reg cr sk fv σ with
        | .error e => rw [hx] at h; simp at h
        | .ok (r, σ₁) =>
          rw [hx] at h
          dsimp only at h
          match ht : normalizePropsInline reg cr rest fields σ₁ with
          | .error e => rw [ht] at h; simp at h
          | .ok (fs₂, σ₂) =>
            rw [ht] at h
            simp only [Except.ok.injEq, Prod.mk.injEq] at h
            exact h.2 ▸ (normalizeEntity_evolves reg cr sk fv σ r σ₁ hx).trans
              (normalizePropsInline_evolves reg cr rest fields σ₁ fs₂ σ₂ ht)
      | none =>
        rw [hk] at h
        exact normalizePropsInline_evolves reg cr rest fields σ fs σ' h

/-- The id-branch property loop only grows the store. -/
theorem normalizePropsChecked_evolves (reg : Registry) (cr : String → Option (String → Bool))
    (en : String) (idv : Value) (req : Option (List String)) :
    ∀ (props : List (String × SchemaEntity)) (fields : List (String × Value))
      (σ : Store) (fs : List (String × Value)) (σ' : Store),
      normalizePropsChecked reg cr props fields en idv req σ = .ok (fs, σ') → StoreEvolves σ σ'
  | [], fields, σ, fs, σ', h => by
      simp only [normalizePropsChecked, Except.ok.injEq, Prod.mk.injEq] at h
      exact h.2 ▸ .refl σ
  | (k, sk) :: rest, fields, σ, fs, σ', h => by
      simp only [normalizePropsChecked] at h
      match hk : alookup fields k with
      | some fv =>
        rw [hk] at h
        dsimp only at h
        match hx : normalizeEntity reg cr sk fv σ with
        | .error e => rw [hx] at h; simp at h
        | .ok (r, σ₁) =>
          rw [hx] at h
          dsimp only at h
          match ht : normalizePropsChecked reg cr rest fields en idv req σ₁ with
          | .error e => rw [ht] at h; simp at h
          | .ok (fs₂, σ₂) =>
            rw [ht] at h
            simp only [Except.ok.injEq, Prod.mk.injEq] at h
            exact h.2 ▸ (normalizeEntity_evolves reg cr sk fv σ r σ₁ hx).trans
              (normalizePropsChecked_evolves reg cr en idv req rest fields σ₁ fs₂ σ₂ ht)
      | none =>
        rw [hk] at h
        by_cases hreq : requiredContains req k
        · rw [if_pos hreq] at h; simp at h
        · rw [if_neg hreq] at h
          exact normalizePropsChecked_evolves reg cr en idv req rest fields σ fs σ' h

/-- When every returned id is an EntityID, the custom write-back loop
succeeds and equals the left fold of `entities[name][id] = element`. -/
theorem writeCustomPairs_eq_foldl (t : String) :
    ∀ (pairs : List (Value × Value)) (σ : Store),
      (∀ p ∈ pairs, isEntityID p.1 = true) →
      writeCustomPairs t pairs σ =
        .ok (pairs.foldl (fun σ' p => storeWrite σ' t (jsToString p.1) p.2) σ)
  | [], σ, hp => by simp [writeCustomPairs]
  | (id, x) :: rest, σ, hp => by
      simp only [writeCustomPairs, List.foldl_cons]
      rw [if_pos (hp (id, x) (List.mem_cons_self _ _))]
      exact writeCustomPairs_eq_foldl t rest _ (fun p hpm => hp p (List.mem_cons_of_mem _ hpm))

theorem partLookup_storeWrite_other (σ : Store) (t k q : String) (v : Value)
    (hq : q ≠ k) : partLookup (storeWrite σ t k v) t q = partLookup σ t q := by
  unfold partLookup
  rw [alookup_storeWrite_self]
  match h : alookup σ t with
  | some p => simp only [h, Option.getD_some]; exact alookup_aupsert_ne p k q v hq
  | none => simp only [h, Option.getD_none]; rw [alookup_aupsert_ne [] k q v hq]; simp [alookup]

/-- A partition entry survives a fold of writes whose keys all differ from
its key. -/
theorem partLookup_foldl_preserved (t q : String) (val : Value) :
    ∀ (pairs : List (Value × Value)) (σ₀ : Store),
      q ∉ pairs.map (fun p => jsToString p.1) →
      partLookup σ₀ t q = some val →
      partLookup (pairs.foldl (fun σ' p => storeWrite σ' t (jsToString p.1) p.2) σ₀) t q = some val
  | [], σ₀, hq, hh => by simpa using hh
  | (id, x) :: rest, σ₀, hq, hh => by
      simp only [List.map_cons, List.mem_cons, not_or] at hq
      simp only [List.foldl_cons]
      refine partLookup_foldl_preserved t q val rest _ hq.2 ?_
      rw [partLookup_storeWrite_other _ t _ _ _ hq.1]
      exact hh

/-- After the custom write-back fold with globally distinct keys, every
(id, element) pair is retrievable. -/
theorem foldl_storeWrite_lookup (t : String) :
    ∀ (pairs : List (Value × Value)) (σ : Store),
      ((pairs.map (fun p => jsToString p.1)).Nodup) →
      ∀ p ∈ pairs,
        partLookup (pairs.foldl (fun σ' q => storeWrite σ' t (jsToString q.1) q.2) σ) t
          (jsToString p.1) = some p.2
  | [], σ, hnd, p, hp => by simp at hp
  | (id, x) :: rest, σ, hnd, p, hp => by
      simp only [List.map_cons, List.nodup_cons] at hnd
      rcases List.mem_cons.mp hp with h1 | h2
      · subst h1
        simp only [List.foldl_cons]
        exact partLookup_foldl_preserved t (jsToString id) x rest _ hnd.1
          (partLookup_storeWrite_self σ t (jsToString id) x)
      · simp only [List.foldl_cons]
        exact foldl_storeWrite_lookup t rest _ hnd.2 p h2


/-! ### Concrete fixtures used by claim counterexamples and witnesses -/

/-- A regex compiler instance for concrete runs that use no `pattern`. -/
def cr0 : String → Option (String → Bool) := fun _ => none

/-- An unconstrained string schema node. -/
def strS : SchemaEntity := .str none none none

/-- The repo test schema `{ tags: { type: 'array', items: { type: 'string' } } }`. -/
def tagsSchema : Schema := [("tags", .arr none strS)]

/-- The `tags` test input `['tag1', 'tag2', 'tag3']`. -/
def tagsData : Value := .vArr [.vStr "tag1", .vStr "tag2", .vStr "tag3"]

/-- A `user` object schema with `id` and `name` string properties. -/
def userSchema : Schema :=
  [("user", .obj (some "user") [("id", strS), ("name", strS)] none)]

/-- A `user` object schema declaring property `a` and requiring it. -/
def reqSchema : Schema := [("user", .obj (some "user") [("a", strS)] (some ["a"]))]

/-- A demonstration custom handler: arrays map elementwise to string ids,
anything else maps to the single id `"w1"`. -/
def h9 : CustomHandler := fun v _ _ =>
  match v with
  | .vArr xs => .vArr (xs.map (fun x =>
      match x with
      | .vStr s => .vStr ("id_" ++ s)
      | _ => .vStr "id"))
  | _ => .vStr "w1"

/-- A registry holding `h9` under the custom schema name `"widget"`. -/
def reg9 : Registry := [("widget", h9)]

/-! ### Claims -/

/-- Claim C1: the spec's round-trip law says that for every schema whose
object nodes all describe id-carrying data, `denormalize (normalize x s) s`
is structurally equal to `x` for every conforming `x`.  The code breaks this
law on the repository's own test input `['tag1','tag2','tag3']` with schema
`{tags: {type: 'array', items: {type: 'string'}}}` (a schema with no object
node at all, so the id premise holds vacuously): `normalize` succeeds with
result `['tag1','tag2','tag3']` and an empty store, but `denormalize` maps
each result element through the ROOT array schema entity instead of its
`items`, so dereferencing the scalar `'tag1'` under the array schema raises
`Expected array for entity` instead of reproducing the input.  The repo's own
test (`should handle arrays of primitive values`, tests/normalizer/
normalizer.test.ts) asserts this exact round trip, so the claim reflects the
intent and the code is wrong. -/
theorem c1_roundtrip_code_bug :
    normalize [] cr0 tagsData tagsSchema = .ok ⟨[], tagsData⟩ ∧
    denormalize ⟨[], tagsData⟩ tagsSchema =
      .error (.expectedArray none (.vStr "tag1")) := by
  constructor
  · simp [normalize, tagsData, tagsSchema, validateSchema, validateSchemaEntity, validateProps,
      normalizeEntity, normalizeArray, normalizeItems, normalizePrimitive,
      normalizePrimitive.normalizeStringTail, normalizePrimitive.normalizePatternTail,
      typeofValue, isEntityID, strS, MAX_DEPTH, cr0]
  · simp [denormalize, tagsData, tagsSchema, denormElems, denormalizeEntity, resolveEntity,
      nameTruthy, isFalsy, strS]

/-- Claim C5 (counterexample): the claim says denormalization re-validates a
stored scalar against the same rules as normalization (minLength/maxLength/
pattern/minimum/maximum included).  In fact `denormalizePrimitive` accepts
the one-character string `"a"` under a schema whose `minLength` is 2, while
`normalizePrimitive` rejects the same value under the same schema. -/
theorem c5_counterexample :
    denormalizePrimitive (.vStr "a") (.str (some 2) none none) = .ok (.vStr "a") ∧
    normalizePrimitive cr0 (.vStr "a") (.str (some 2) none none) =
      .error (.stringBelowMinLength 1 2) := by
  constructor
  · simp [denormalizePrimitive, typeofValue, schemaTypeTag]
  · simp only [normalizePrimitive]
    rw [if_pos (show "a".length < 2 by decide)]
    rfl

/-- Claim C5 (amended): during denormalization `denormalizePrimitive`
re-validates only the exact `typeof` match against the schema's `type` tag —
every type-correct scalar is returned unchanged regardless of the schema's
`minLength`/`maxLength`/`pattern`/`minimum`/`maximum` constraints, and a
`typeof` mismatch raises a `DenormalizationError` — while `normalizePrimitive`
does enforce those constraints (shown here for `minLength`). -/
theorem c5_denorm_typechecks_only (minL maxL : Option Nat) (pat : Option String)
    (sv : String) (mi ma : Option Int) (n : Int) (b : Bool) (v : Value) (s : SchemaEntity)
    (cr : String → Option (String → Bool)) :
    denormalizePrimitive (.vStr sv) (.str minL maxL pat) = .ok (.vStr sv) ∧
    denormalizePrimitive (.vNum n) (.num mi ma) = .ok (.vNum n) ∧
    denormalizePrimitive (.vBool b) .bool = .ok (.vBool b) ∧
    (typeofValue v ≠ schemaTypeTag s →
      denormalizePrimitive v s = .error (.typeMismatchD (schemaTypeTag s) (typeofValue v))) ∧
    (∀ m : Nat, sv.length < m →
      normalizePrimitive cr (.vStr sv) (.str (some m) maxL pat) =
        .error (.stringBelowMinLength sv.length m)) := by
  refine ⟨?_, ?_, ?_, ?_, ?_⟩
  · simp [denormalizePrimitive, typeofValue, schemaTypeTag]
  · simp [denormalizePrimitive, typeofValue, schemaTypeTag]
  · simp [denormalizePrimitive, typeofValue, schemaTypeTag]
  · intro hne
    simp [denormalizePrimitive, hne]
  · intro m hm
    simp [normalizePrimitive, hm]

/-- Claim C5 amended, exercised at concrete inputs. -/
theorem c5_denorm_typechecks_only_witness :
    denormalizePrimitive (.vStr "a") (.str (some 5) (some 9) (some "x")) = .ok (.vStr "a") ∧
    typeofValue (.vBool true) ≠ schemaTypeTag (.num none none) ∧
    denormalizePrimitive (.vBool true) (.num none none) =
      .error (.typeMismatchD "number" "boolean") ∧
    (1 : Nat) < 5 ∧
    normalizePrimitive cr0 (.vStr "a") (.str (some 5) (some 9) (some "x")) =
      .error (.stringBelowMinLength 1 5) := by
  have h := c5_denorm_typechecks_only (some 5) (some 9) (some "x") "a" none none 3 true
    (.vBool true) (.num none none) cr0
  refine ⟨h.1, by simp [typeofValue, schemaTypeTag], h.2.2.2.1 (by simp [typeofValue, schemaTypeTag]), by decide, h.2.2.2.2 5 (by decide)⟩

/-- Claim C6: dereferencing any EntityID (a string or number value) against a
primitive schema entity during denormalization returns the id itself,
unchanged, for EVERY entity store — so no store lookup can be involved. -/
theorem c6_primitive_identity (entities : Store) (id : Value) (s : SchemaEntity)
    (hp : isPrimNode s = true) (hid : isEntityID id = true) :
    denormalizeEntity entities id s = .ok id := by
  cases s with
  | obj nm props req => simp [isPrimNode] at hp
  | arr nm items => simp [isPrimNode] at hp
  | custom nm => simp [isPrimNode] at hp
  | str minL maxL pat => simp [denormalizeEntity]
  | num mi ma => simp [denormalizeEntity]
  | bool => simp [denormalizeEntity]

/-- Claim C6, exercised at a concrete input: the id `"1"` under a string
schema, against a store that does NOT contain `"1"` anywhere. -/
theorem c6_primitive_identity_witness :
    isPrimNode strS = true ∧ isEntityID (.vStr "1") = true ∧
    denormalizeEntity [("user", [("2", .vObj [])])] (.vStr "1") strS = .ok (.vStr "1") :=
  ⟨by simp [isPrimNode, strS], by simp [isEntityID],
    c6_primitive_identity [("user", [("2", .vObj [])])] (.vStr "1") strS
      (by simp [isPrimNode, strS]) (by simp [isEntityID])⟩

/-- Claim C8 (counterexample): the claim says that a missing type partition
raises a `DenormalizationError` naming BOTH the entity type and the id, and
in particular that `denormalize({entities:{}, result:"1"}, userSchema)` does
so.  The code raises `No entities found for type: user` whose context carries
only `entityType` — the error names the type but not the id `"1"`. -/
theorem c8_counterexample :
    denormalize ⟨[], .vStr "1"⟩ userSchema = .error (.noEntitiesForType (some "user")) ∧
    DenormErr.namedType (.noEntitiesForType (some "user")) = some "user" ∧
    DenormErr.namedId (.noEntitiesForType (some "user")) = none := by
  refine ⟨?_, by simp [DenormErr.namedType], by simp [DenormErr.namedId]⟩
  simp [denormalize, userSchema, denormalizeEntity, resolveEntity, nameTruthy, alookup, strS]

/-- Claim C8 (amended): dereferencing an EntityID against an object schema
with a truthy name `t`: absence of the type partition raises
`No entities found for type` naming the entity type ONLY, while presence of
the partition but absence of the id raises `Entity not found` naming both the
type and the id. -/
theorem c8_missing_entity_errors (entities : Store) (t : String) (ht : t ≠ "")
    (props : List (String × SchemaEntity)) (req : Option (List String)) (id : Value) :
    (alookup entities t = none →
      denormalizeEntity entities id (.obj (some t) props req) =
        .error (.noEntitiesForType (some t)) ∧
      DenormErr.namedId (.noEntitiesForType (some t)) = none) ∧
    (∀ part, alookup entities t = some part → alookup part (jsToString id) = none →
      denormalizeEntity entities id (.obj (some t) props req) =
        .error (.entityNotFound (some t) id) ∧
      DenormErr.namedType (.entityNotFound (some t) id) = some t ∧
      DenormErr.namedId (.entityNotFound (some t) id) = some id) := by
  constructor
  · intro hnone
    refine ⟨?_, by simp [DenormErr.namedId]⟩
    simp [denormalizeEntity, resolveEntity, nameTruthy, ht, hnone]
  · intro part hpart hid
    refine ⟨?_, by simp [DenormErr.namedType], by simp [DenormErr.namedId]⟩
    simp [denormalizeEntity, resolveEntity, nameTruthy, ht, hpart, hid]

/-- Claim C8 amended, exercised at concrete inputs: an empty store (missing
partition), and a store whose `user` partition lacks id `"1"`. -/
theorem c8_missing_entity_errors_witness :
    denormalizeEntity [] (.vStr "1") (.obj (some "user") [("id", strS)] none) =
      .error (.noEntitiesForType (some "user")) ∧
    denormalizeEntity [("user", [("2", .vObj [])])] (.vStr "1")
        (.obj (some "user") [("id", strS)] none) =
      .error (.entityNotFound (some "user") (.vStr "1")) :=
  ⟨((c8_missing_entity_errors [] "user" (by decide) [("id", strS)] none
      (.vStr "1")).1 (by simp [alookup])).1,
   ((c8_missing_entity_errors [("user", [("2", .vObj [])])] "user" (by decide)
      [("id", strS)] none (.vStr "1")).2 [("2", .vObj [])] (by simp [alookup])
      (by simp [alookup, jsToString])).1⟩


/-- Claim C3: normalizing an object under an object schema branches on the
presence of an `id` field.  Without `id` the object is not registered: the
result is the inline map produced by recursively normalizing exactly the
declared properties that are present (in declaration order), and the final
store is exactly the store the recursive property walk left behind (this call
adds no entry of its own).  With `id` the recursively-normalized record is
stored under `entities[schema.name || 'unnamed'][id]` and the `id` value is
returned. -/
theorem c3_object_branches (reg : Registry) (cr : String → Option (String → Bool))
    (fields : List (String × Value)) (nm : Option String)
    (props : List (String × SchemaEntity)) (req : Option (List String))
    (σ : Store) (r : Value) (σ' : Store)
    (h : normalizeObject reg cr (.vObj fields) nm props req σ = .ok (r, σ')) :
    (alookup fields "id" = none →
      ∃ fs, r = .vObj fs ∧
        normalizePropsInline reg cr props fields
          (ensurePartition σ (entityNameOf nm)) = .ok (fs, σ') ∧
        fs.map Prod.fst = (props.map Prod.fst).filter (fun k => (alookup fields k).isSome) ∧
        List.Forall₂ (fun (p : String × SchemaEntity) (e : String × Value) =>
            e.1 = p.1 ∧ ∃ fv σa σb, alookup fields p.1 = some fv ∧
              normalizeEntity reg cr p.2 fv σa = .ok (e.2, σb))
          (props.filter (fun p => (alookup fields p.1).isSome)) fs) ∧
    (∀ idv, alookup fields "id" = some idv →
      r = idv ∧ ∃ fs σ₁,
        normalizePropsChecked reg cr props fields (entityNameOf nm) idv req
          (ensurePartition σ (entityNameOf nm)) = .ok (fs, σ₁) ∧
        σ' = storeWrite σ₁ (entityNameOf nm) (jsToString idv) (.vObj fs) ∧
        partLookup σ' (entityNameOf nm) (jsToString idv) = some (.vObj fs) ∧
        fs.map Prod.fst = (props.map Prod.fst).filter (fun k => (alookup fields k).isSome)) := by
  rw [normalizeObject_vObj] at h
  constructor
  · intro hid
    rw [hid] at h
    dsimp only at h
    match hq : normalizePropsInline reg cr props fields
        (ensurePartition σ (entityNameOf nm)) with
    | .error e => rw [hq] at h; simp at h
    | .ok (fs, σ₂) =>
      rw [hq] at h
      simp only [Except.ok.injEq, Prod.mk.injEq] at h
      obtain ⟨h1, h2⟩ := h
      exact ⟨fs, h1.symm, by rw [h2],
        normalizePropsInline_keys reg cr props fields _ fs σ₂ hq,
        normalizePropsInline_entries reg cr props fields _ fs σ₂ hq⟩
  · intro idv hid
    rw [hid] at h
    dsimp only at h
    match hq : normalizePropsChecked reg cr props fields (entityNameOf nm) idv req
        (ensurePartition σ (entityNameOf nm)) with
    | .error e => rw [hq] at h; simp at h
    | .ok (fs, σ₁) =>
      rw [hq] at h
      simp only [Except.ok.injEq, Prod.mk.injEq] at h
      obtain ⟨h1, h2⟩ := h
      have hpl : partLookup σ' (entityNameOf nm) (jsToString idv) = some (.vObj fs) := by
        rw [← h2]
        exact partLookup_storeWrite_self σ₁ (entityNameOf nm) (jsToString idv) (.vObj fs)
      exact ⟨h1.symm, fs, σ₁, rfl, h2.symm, hpl,
        normalizePropsChecked_keys reg cr (entityNameOf nm) idv req props fields _ fs σ₁ hq⟩

/-- Claim C3, exercised on `{id:"1", name:"J"}` under the `user` schema: the
run succeeds, and the theorem's id branch applies. -/
theorem c3_object_branches_witness :
    ∃ r σ', normalizeObject [] cr0 (.vObj [("id", .vStr "1"), ("name", .vStr "J")])
        (some "user") [("id", strS), ("name", strS)] none [] = .ok (r, σ') ∧
      r = .vStr "1" ∧ ∃ fs σ₁,
        normalizePropsChecked [] cr0 [("id", strS), ("name", strS)]
          [("id", .vStr "1"), ("name", .vStr "J")] (entityNameOf (some "user"))
          (.vStr "1") none (ensurePartition [] (entityNameOf (some "user"))) = .ok (fs, σ₁) ∧
        σ' = storeWrite σ₁ (entityNameOf (some "user")) (jsToString (.vStr "1")) (.vObj fs) ∧
        partLookup σ' (entityNameOf (some "user")) (jsToString (.vStr "1")) = some (.vObj fs) ∧
        fs.map Prod.fst = ((["id", "name"] : List String).filter
          (fun k => (alookup [("id", Value.vStr "1"), ("name", Value.vStr "J")] k).isSome)) := by
  have hne : ∀ (s : String) (σ : Store),
      normalizeEntity [] cr0 strS (.vStr s) σ = .ok (.vStr s, σ) := by
    intro s σ
    simp [normalizeEntity, strS, normalizePrimitive, normalizePrimitive.normalizeStringTail,
      normalizePrimitive.normalizePatternTail, typeofValue, cr0]
  have hpc : normalizePropsChecked [] cr0 [("id", strS), ("name", strS)]
      [("id", .vStr "1"), ("name", .vStr "J")] (entityNameOf (some "user")) (.vStr "1") none
      (ensurePartition [] (entityNameOf (some "user"))) =
      .ok ([("id", .vStr "1"), ("name", .vStr "J")], [("user", [])]) := by
    rw [show ensurePartition [] (entityNameOf (some "user")) = [("user", [])] from rfl]
    rw [normalizePropsChecked,
      show alookup [("id", Value.vStr "1"), ("name", Value.vStr "J")] "id" =
        some (.vStr "1") from rfl]
    dsimp only
    rw [hne "1" _]
    dsimp only
    rw [normalizePropsChecked,
      show alookup [("id", Value.vStr "1"), ("name", Value.vStr "J")] "name" =
        some (.vStr "J") from rfl]
    dsimp only
    rw [hne "J" _]
    dsimp only
    rw [normalizePropsChecked]
  have hrun : normalizeObject [] cr0 (.vObj [("id", .vStr "1"), ("name", .vStr "J")])
      (some "user") [("id", strS), ("name", strS)] none [] =
      .ok (.vStr "1", [("user", [("1", .vObj [("id", .vStr "1"), ("name", .vStr "J")])])]) := by
    rw [normalizeObject_vObj_id [] cr0 _ _ _ _ _ _
      (show alookup [("id", Value.vStr "1"), ("name", Value.vStr "J")] "id" =
        some (.vStr "1") from rfl), hpc]
    simp [storeWrite, aupsert, alookup, jsToString, entityNameOf]
  have h := (c3_object_branches [] cr0 [("id", .vStr "1"), ("name", .vStr "J")]
      (some "user") [("id", strS), ("name", strS)] none [] _ _ hrun).2
      (.vStr "1") (by simp [alookup])
  exact ⟨_, _, hrun, h⟩

/-- Claim C4 (counterexample): the claim says that normalizing any object
that lacks a property listed in its schema's `required` raises a
`NormalizationError` naming that property.  But required-property enforcement
lives only in the `id` branch of `normalizeObject`: an object WITHOUT an `id`
skips it entirely, so normalizing `{}` against a schema requiring property
`a` succeeds (returning the inline empty record and an empty `user`
partition) instead of raising. -/
theorem c4_counterexample :
    normalize [] cr0 (.vObj []) reqSchema = .ok ⟨[("user", [])], .vObj []⟩ := by
  have h1 : validateSchemaEntity strS ("user" ++ "." ++ "a") false (0 + 1) = .ok () := by
    simp [validateSchemaEntity, strS, MAX_DEPTH]
  have h3 : validateProps [("a", strS)] "user" 0 = .ok () := by
    simp only [validateProps, h1]
  have h4 : validateSchemaEntity (.obj (some "user") [("a", strS)] (some ["a"]))
      "user" true 0 = .ok () := by
    simp only [validateSchemaEntity]
    rw [if_neg (by simp [MAX_DEPTH]), if_neg (by simp [nameTruthy])]
    exact h3
  have hval : validateSchema reqSchema = .ok () := by
    rw [show reqSchema = [("user", .obj (some "user") [("a", strS)] (some ["a"]))] from rfl,
      validateSchema, h4]
    rfl
  have hin : normalizePropsInline [] cr0 [("a", strS)] [] [("user", [])] =
      .ok ([], [("user", [])]) := by
    rw [normalizePropsInline,
      show alookup ([] : List (String × Value)) "a" = none from rfl]
    dsimp only
    rw [normalizePropsInline]
  have hobj : normalizeEntity [] cr0 (.obj (some "user") [("a", strS)] (some ["a"]))
      (.vObj []) [] = .ok (.vObj [], [("user", [])]) := by
    simp only [normalizeEntity]
    rw [normalizeObject_vObj_noid [] cr0 _ _ _ _ _
      (show alookup ([] : List (String × Value)) "id" = none from rfl)]
    rw [show ensurePartition [] (entityNameOf (some "user")) = [("user", [])] from rfl, hin]
  rw [show reqSchema = [("user", .obj (some "user") [("a", strS)] (some ["a"]))] from rfl]
    at hval ⊢
  rw [normalize, hval]
  dsimp only
  rw [if_neg (by simp [typeofValue])]
  rw [hobj]

/-- Claim C4 (amended): required-property enforcement applies only to objects
that carry an `id`, and only to `required` names that appear among the
declared properties.  For an id-carrying object, once the declared
properties before `k` have normalized successfully, a declared absent
property `k` listed in `required` makes `normalizeObject` (and hence
`normalize`, whose top-level catch re-throws `NormalizationError`s
unchanged) raise `Missing required property` naming the entity, the id and
the property `k`. -/
theorem c4_required_enforcement (reg : Registry) (cr : String → Option (String → Bool))
    (nm : Option String) (k₀ : String) (p₁ p₂ : List (String × SchemaEntity))
    (k : String) (sk : SchemaEntity) (rl : List String)
    (fields : List (String × Value)) (idv : Value)
    (hid : alookup fields "id" = some idv)
    (habsent : alookup fields k = none)
    (hreq : k ∈ rl) :
    (∀ (σ : Store) (fs : List (String × Value)) (σ₁ : Store),
      normalizePropsChecked reg cr p₁ fields (entityNameOf nm) idv (some rl)
        (ensurePartition σ (entityNameOf nm)) = .ok (fs, σ₁) →
      normalizeObject reg cr (.vObj fields) nm (p₁ ++ (k, sk) :: p₂) (some rl) σ =
        .error (.missingRequiredProperty (entityNameOf nm) idv k)) ∧
    (∀ (fs : List (String × Value)) (σ₁ : Store),
      validateSchema [(k₀, .obj nm (p₁ ++ (k, sk) :: p₂) (some rl))] = .ok () →
      normalizePropsChecked reg cr p₁ fields (entityNameOf nm) idv (some rl)
        (ensurePartition [] (entityNameOf nm)) = .ok (fs, σ₁) →
      normalize reg cr (.vObj fields) [(k₀, .obj nm (p₁ ++ (k, sk) :: p₂) (some rl))] =
        .error (.missingRequiredProperty (entityNameOf nm) idv k)) := by
  have hmain : ∀ (σ : Store) (fs : List (String × Value)) (σ₁ : Store),
      normalizePropsChecked reg cr p₁ fields (entityNameOf nm) idv (some rl)
        (ensurePartition σ (entityNameOf nm)) = .ok (fs, σ₁) →
      normalizeObject reg cr (.vObj fields) nm (p₁ ++ (k, sk) :: p₂) (some rl) σ =
        .error (.missingRequiredProperty (entityNameOf nm) idv k) := by
    intro σ fs σ₁ hpre
    rw [normalizeObject_vObj, hid]
    dsimp only
    rw [normalizePropsChecked_append reg cr fields (entityNameOf nm) idv (some rl) p₁
      ((k, sk) :: p₂) (ensurePartition σ (entityNameOf nm)), hpre]
    dsimp only
    simp only [normalizePropsChecked, habsent]
    rw [if_pos (show requiredContains (some rl) k = true by
      simp only [requiredContains]
      exact List.elem_eq_true_of_mem hreq)]
  refine ⟨hmain, fun fs σ₁ hval hpre => ?_⟩
  simp only [normalize, hval, typeofValue]
  rw [if_neg (by simp)]
  simp only [normalizeEntity, hmain [] fs σ₁ hpre]

/-- Claim C4 amended, exercised on `{id:"1"}` under a `user` schema declaring
`id` and `a` with `required: ["a"]`. -/
theorem c4_required_enforcement_witness :
    normalize [] cr0 (.vObj [("id", .vStr "1")]) [("user", .obj (some "user")
        ([("id", strS)] ++ ("a", strS) :: []) (some ["a"]))] =
      .error (.missingRequiredProperty (entityNameOf (some "user")) (.vStr "1") "a") :=
  (c4_required_enforcement [] cr0 (some "user") "user" [("id", strS)] [] "a" strS ["a"]
    [("id", .vStr "1")] (.vStr "1")
    (by simp [alookup]) (by simp [alookup]) (by simp)).2
    [("id", .vStr "1")] [("user", [])]
    (by
      simp only [List.cons_append, List.nil_append]
      have h1 : validateSchemaEntity strS ("user" ++ "." ++ "id") false (0 + 1) = .ok () := by
        simp [validateSchemaEntity, strS, MAX_DEPTH]
      have h2 : validateSchemaEntity strS ("user" ++ "." ++ "a") false (0 + 1) = .ok () := by
        simp [validateSchemaEntity, strS, MAX_DEPTH]
      have h3 : validateProps [("id", strS), ("a", strS)] "user" 0 = .ok () := by
        simp only [validateProps, h1, h2]
      have h4 : validateSchemaEntity
          (.obj (some "user") [("id", strS), ("a", strS)] (some ["a"])) "user" true 0 =
          .ok () := by
        simp only [validateSchemaEntity]
        rw [if_neg (by simp [MAX_DEPTH]), if_neg (by simp [nameTruthy])]
        exact h3
      rw [validateSchema, h4]
      rfl)
    (by simp [normalizePropsChecked, normalizeEntity, normalizePrimitive,
      normalizePrimitive.normalizeStringTail, normalizePrimitive.normalizePatternTail,
      ensurePartition, alookup, aupsert, entityNameOf, typeofValue, strS, cr0])

/-- Claim C10: `normalizeObject` creates the partition
`entities[schema.name || 'unnamed']` before the `id` check, so on every
successful call the partition is present in the final store; consequently
normalizing a top-level object WITHOUT an `id` (here with all-primitive
properties, which never write) still leaves that partition present — and
empty — in the returned `NormalizedData`'s entities map. -/
theorem c10_partition_before_id (reg : Registry) (cr : String → Option (String → Bool)) :
    (∀ (fields : List (String × Value)) (nm : Option String)
       (props : List (String × SchemaEntity)) (req : Option (List String))
       (σ : Store) (r : Value) (σ' : Store),
      normalizeObject reg cr (.vObj fields) nm props req σ = .ok (r, σ') →
      (alookup σ' (entityNameOf nm)).isSome) ∧
    (∀ (k₀ : String) (nm : Option String) (props : List (String × SchemaEntity))
       (req : Option (List String)) (fields : List (String × Value)) (nd : NormalizedData),
      alookup fields "id" = none →
      (∀ p ∈ props, isPrimNode p.2 = true) →
      normalize reg cr (.vObj fields) [(k₀, .obj nm props req)] = .ok nd →
      alookup nd.entities (entityNameOf nm) = some []) := by
  constructor
  · intro fields nm props req σ r σ' h
    rw [normalizeObject_vObj] at h
    match hid : alookup fields "id" with
    | none =>
      rw [hid] at h
      dsimp only at h
      match hq : normalizePropsInline reg cr props fields
          (ensurePartition σ (entityNameOf nm)) with
      | .error e => rw [hq] at h; simp at h
      | .ok (fs, σ₂) =>
        rw [hq] at h
        simp only [Except.ok.injEq, Prod.mk.injEq] at h
        rw [← h.2]
        exact (normalizePropsInline_evolves reg cr props fields _ fs σ₂ hq).keys_mono
          (entityNameOf nm)
          (by rw [alookup_ensurePartition_self]; simp)
    | some idv =>
      rw [hid] at h
      dsimp only at h
      match hq : normalizePropsChecked reg cr props fields (entityNameOf nm) idv req
          (ensurePartition σ (entityNameOf nm)) with
      | .error e => rw [hq] at h; simp at h
      | .ok (fs, σ₁) =>
        rw [hq] at h
        simp only [Except.ok.injEq, Prod.mk.injEq] at h
        rw [← h.2, alookup_storeWrite_self]
        simp
  · intro k₀ nm props req fields nd hid hprim hnorm
    simp only [normalize] at hnorm
    match hval : validateSchema [(k₀, .obj nm props req)] with
    | .error e => rw [hval] at hnorm; simp at hnorm
    | .ok u =>
      rw [hval] at hnorm
      rw [if_neg (by simp [typeofValue])] at hnorm
      dsimp only at hnorm
      simp only [normalizeEntity] at hnorm
      rw [normalizeObject_vObj, hid] at hnorm
      dsimp only at hnorm
      match hq : normalizePropsInline reg cr props fields
          (ensurePartition [] (entityNameOf nm)) with
      | .error e => rw [hq] at hnorm; simp at hnorm
      | .ok (fs, σ₂) =>
        rw [hq] at hnorm
        simp only [Except.ok.injEq] at hnorm
        have hσ : σ₂ = ensurePartition [] (entityNameOf nm) :=
          normalizePropsInline_prim_store reg cr props fields _ fs σ₂ hprim hq
        rw [← hnorm]
        simp [hσ, ensurePartition, alookup, aupsert]

/-- Claim C10, exercised on the id-less object `{name:"J"}` under the `user`
schema: the returned entities map contains the empty `user` partition. -/
theorem c10_partition_before_id_witness :
    ((alookup ([("user", [])] : Store) (entityNameOf (some "user"))).isSome) ∧
    (∀ nd : NormalizedData,
      normalize [] cr0 (.vObj [("name", .vStr "J")]) userSchema = .ok nd →
      alookup nd.entities (entityNameOf (some "user")) = some []) := by
  constructor
  · exact (c10_partition_before_id [] cr0).1 [("name", .vStr "J")] (some "user")
      [("id", strS), ("name", strS)] none [] (.vObj [("name", .vStr "J")]) [("user", [])]
      (by
        have hne : ∀ (s : String) (σ : Store),
            normalizeEntity [] cr0 strS (.vStr s) σ = .ok (.vStr s, σ) := by
          intro s σ
          simp [normalizeEntity, strS, normalizePrimitive,
            normalizePrimitive.normalizeStringTail,
            normalizePrimitive.normalizePatternTail, typeofValue, cr0]
        have hin : normalizePropsInline [] cr0 [("id", strS), ("name", strS)]
            [("name", .vStr "J")] (ensurePartition [] (entityNameOf (some "user"))) =
            .ok ([("name", .vStr "J")], [("user", [])]) := by
          rw [show ensurePartition [] (entityNameOf (some "user")) = [("user", [])] from rfl]
          rw [normalizePropsInline,
            show alookup [("name", Value.vStr "J")] "id" = none from rfl]
          dsimp only
          rw [normalizePropsInline,
            show alookup [("name", Value.vStr "J")] "name" = some (.vStr "J") from rfl]
          dsimp only
          rw [hne "J" _]
          dsimp only
          rw [normalizePropsInline]
        rw [normalizeObject_vObj_noid [] cr0 _ _ _ _ _
          (show alookup [("name", Value.vStr "J")] "id" = none from rfl), hin])
  · intro nd hnd
    exact (c10_partition_before_id [] cr0).2 "user" (some "user")
      [("id", strS), ("name", strS)] none [("name", .vStr "J")] nd
      (by simp [alookup]) (by intro p hp; fin_cases hp <;> simp [isPrimNode, strS])
      hnd


/-- Claim C7: `normalizeArray` rejects non-array input; an element whose
recursive normalization yields an array raises `Nested arrays are not
supported`, an element whose result is not an EntityID (e.g. an inline
non-identified object map) raises `Array item normalization did not result
in an EntityID`, and on success the result is the flat list of the elements'
EntityID results, elementwise in order. -/
theorem c7_array_contract (reg : Registry) (cr : String → Option (String → Bool))
    (items : SchemaEntity) (σ : Store) :
    (∀ v : Value, (∀ xs, v ≠ .vArr xs) →
      normalizeArray reg cr v items σ = .error (.invalidEntityForArray (typeofValue v))) ∧
    (∀ (x : Value) (t : List Value) (σ₁ : Store) (ys : List Value),
      normalizeEntity reg cr items x σ = .ok (.vArr ys, σ₁) →
      normalizeArray reg cr (.vArr (x :: t)) items σ =
        .error (.nestedArraysNotSupported 0)) ∧
    (∀ (x : Value) (t : List Value) (σ₁ : Store) (r : Value),
      normalizeEntity reg cr items x σ = .ok (r, σ₁) →
      (∀ ys, r ≠ .vArr ys) → isEntityID r = false →
      normalizeArray reg cr (.vArr (x :: t)) items σ =
        .error (.arrayItemNotEntityID 0)) ∧
    (∀ (l : List Value) (res : Value) (σ' : Store),
      normalizeArray reg cr (.vArr l) items σ = .ok (res, σ') →
      ∃ ids, res = .vArr ids ∧ ids.length = l.length ∧
        List.Forall₂ (fun x r => isEntityID r = true ∧
          ∃ σa σb, normalizeEntity reg cr items x σa = .ok (r, σb)) l ids) := by
  refine ⟨?_, ?_, ?_, ?_⟩
  · intro v hv
    cases v with
    | vArr xs => exact absurd rfl (hv xs)
    | vStr sv => simp [normalizeArray, typeofValue]
    | vNum n => simp [normalizeArray, typeofValue]
    | vBool b => simp [normalizeArray, typeofValue]
    | vObj fs => simp [normalizeArray, typeofValue]
  · intro x t σ₁ ys hx
    simp only [normalizeArray, normalizeItems, hx]
  · intro x t σ₁ r hx hnarr hnid
    simp only [normalizeArray, normalizeItems, hx]
    cases r with
    | vArr ys => exact absurd rfl (hnarr ys)
    | vStr sv => simp [isEntityID] at hnid
    | vNum n => simp [isEntityID] at hnid
    | vBool b => simp [isEntityID]
    | vObj fs => simp [isEntityID]
  · intro l res σ' h
    simp only [normalizeArray] at h
    match hq : normalizeItems reg cr items l 0 σ with
    | .error e => rw [hq] at h; simp at h
    | .ok (rs, σ₂) =>
      rw [hq] at h
      simp only [Except.ok.injEq, Prod.mk.injEq] at h
      have hsound := normalizeItems_sound reg cr items l 0 σ rs σ₂ hq
      exact ⟨rs, h.1.symm, hsound.length_eq.symm, hsound⟩

/-- Claim C7, exercised concretely: a non-array input is rejected; an array
of one identified `user` object normalizes to the flat list `["1"]`. -/
theorem c7_array_contract_witness :
    normalizeArray [] cr0 (.vNum 3) (.obj (some "user") [("id", strS)] none) [] =
      .error (.invalidEntityForArray (typeofValue (.vNum 3))) ∧
    (∃ ids, (Value.vArr [Value.vStr "1"]) = Value.vArr ids ∧
      ids.length = [Value.vObj [("id", Value.vStr "1")]].length ∧
      List.Forall₂ (fun x r => isEntityID r = true ∧
          ∃ σa σb, normalizeEntity [] cr0 (.obj (some "user") [("id", strS)] none) x σa =
            .ok (r, σb))
        [Value.vObj [("id", Value.vStr "1")]] ids) := by
  have h := c7_array_contract [] cr0 (.obj (some "user") [("id", strS)] none) []
  refine ⟨h.1 (.vNum 3) (by intro xs; simp), ?_⟩
  exact h.2.2.2 [Value.vObj [("id", Value.vStr "1")]] (.vArr [.vStr "1"])
    [("user", [("1", .vObj [("id", .vStr "1")])])]
    (by simp [normalizeArray, normalizeItems, normalizeEntity, normalizeObject,
      normalizePropsChecked, normalizePrimitive, normalizePrimitive.normalizeStringTail,
      normalizePrimitive.normalizePatternTail, ensurePartition, storeWrite, alookup,
      aupsert, entityNameOf, jsToString, isEntityID, typeofValue, strS, cr0])


/-- Claim C9: for a custom schema node with a registered handler, the engine
checks the handler result's shape class against the input's: array input must
yield an array of EntityIDs of the same length (anything else — non-array
result, a non-EntityID element, or a length mismatch — raises), non-array
input must yield exactly one EntityID (an array result or a non-EntityID
raises), and on success it is the ENGINE that writes the original input
value(s) under the returned id(s) into `entities[name]` — the final store is
the fold of `entities[name][id_i] = input_i` over the returned ids (after
creating the partition), from which each original input is retrievable. -/
theorem c9_custom_contract (reg : Registry) (name : String) (h : CustomHandler)
    (hname : name ≠ "") (hreg : getCustomSchemaHandler reg name = some h) (σ : Store) :
    (∀ (xs ids : List Value),
      h (.vArr xs) (.custom (some name)) σ = .vArr ids →
      ids.all isEntityID = true → ids.length = xs.length →
      normalizeCustomEntity reg (.vArr xs) (some name) σ =
        .ok (.vArr ids, (ids.zip xs).foldl
          (fun σ' p => storeWrite σ' name (jsToString p.1) p.2) (ensurePartition σ name)) ∧
      (((ids.zip xs).map (fun q => jsToString q.1)).Nodup →
        ∀ p ∈ ids.zip xs,
          partLookup ((ids.zip xs).foldl
            (fun σ' q => storeWrite σ' name (jsToString q.1) q.2) (ensurePartition σ name))
            name (jsToString p.1) = some p.2)) ∧
    (∀ (xs : List Value),
      (∀ ids, h (.vArr xs) (.custom (some name)) σ ≠ .vArr ids) →
      normalizeCustomEntity reg (.vArr xs) (some name) σ =
        .error .customHandlerArrayExpected) ∧
    (∀ (xs ids : List Value),
      h (.vArr xs) (.custom (some name)) σ = .vArr ids →
      (ids.all isEntityID = false ∨ ids.length ≠ xs.length) →
      normalizeCustomEntity reg (.vArr xs) (some name) σ =
        .error .customHandlerArrayOfEntityIDs) ∧
    (∀ (v : Value), (∀ xs, v ≠ .vArr xs) →
      (∀ ids, h v (.custom (some name)) σ = .vArr ids →
        normalizeCustomEntity reg v (some name) σ = .error .customHandlerSingleExpected) ∧
      ((∀ ids, h v (.custom (some name)) σ ≠ .vArr ids) →
        isEntityID (h v (.custom (some name)) σ) = false →
        normalizeCustomEntity reg v (some name) σ = .error .customHandlerEntityIDExpected) ∧
      (isEntityID (h v (.custom (some name)) σ) = true →
        normalizeCustomEntity reg v (some name) σ =
          .ok (h v (.custom (some name)) σ,
            storeWrite (ensurePartition σ name) name
              (jsToString (h v (.custom (some name)) σ)) v) ∧
        partLookup (storeWrite (ensurePartition σ name) name
            (jsToString (h v (.custom (some name)) σ)) v) name
            (jsToString (h v (.custom (some name)) σ)) = some v)) := by
  have hunfold : ∀ v : Value, normalizeCustomEntity reg v (some name) σ =
      (let result := h v (.custom (some name)) σ
       let σ₁ := ensurePartition σ name
       match v with
       | .vArr xs =>
         match result with
         | .vArr ids =>
           if ¬ ids.all isEntityID then .error .customHandlerArrayOfEntityIDs
           else if ids.length ≠ xs.length then .error .customHandlerArrayOfEntityIDs
           else
             match writeCustomPairs name (ids.zip xs) σ₁ with
             | .ok σ₂ => .ok (.vArr ids, σ₂)
             | .error e => .error e
         | _ => .error .customHandlerArrayExpected
       | _ =>
         match result with
         | .vArr _ => .error .customHandlerSingleExpected
         | r =>
           if ¬ isEntityID r then .error .customHandlerEntityIDExpected
           else .ok (r, storeWrite σ₁ name (jsToString r) v)) := by
    intro v
    simp only [normalizeCustomEntity, if_neg hname, hreg]
  refine ⟨?_, ?_, ?_, ?_⟩
  · intro xs ids hh hall hlen
    have hpairs : ∀ p ∈ ids.zip xs, isEntityID p.1 = true := by
      intro p hp
      exact (List.all_eq_true.mp hall) p.1 (List.mem_zip hp).1
    constructor
    · rw [hunfold]
      dsimp only
      rw [hh]
      dsimp only
      rw [if_neg (by simp [hall]), if_neg (by simp [hlen]),
        writeCustomPairs_eq_foldl name (ids.zip xs) _ hpairs]
    · intro hnd p hp
      exact foldl_storeWrite_lookup name (ids.zip xs) (ensurePartition σ name) hnd p hp
  · intro xs hne
    rw [hunfold]
    dsimp only
    match hh : h (.vArr xs) (.custom (some name)) σ with
    | .vArr ids => exact absurd hh (hne ids)
    | .vStr sv => rfl
    | .vNum n => rfl
    | .vBool b => rfl
    | .vObj fs => rfl
  · intro xs ids hh hbad
    rw [hunfold]
    dsimp only
    rw [hh]
    dsimp only
    rcases hbad with hb | hb
    · rw [if_pos (by simp [hb])]
    · by_cases hall : ids.all isEntityID
      · rw [if_neg (by simp [hall]), if_pos hb]
      · rw [if_pos (by simpa using hall)]
  · intro v hv
    refine ⟨?_, ?_, ?_⟩
    · intro ids hh
      rw [hunfold]
      cases v with
      | vArr xs => exact absurd rfl (hv xs)
      | vStr sv => dsimp only; rw [hh]
      | vNum n => dsimp only; rw [hh]
      | vBool b => dsimp only; rw [hh]
      | vObj fs => dsimp only; rw [hh]
    · intro hne hnid
      rw [hunfold]
      cases v with
      | vArr xs => exact absurd rfl (hv xs)
      | vStr sv =>
        dsimp only
        match hh : h (.vStr sv) (.custom (some name)) σ with
        | .vArr ids => exact absurd hh (hne ids)
        | .vStr r => rw [hh] at hnid; dsimp only; rw [if_pos (by simp [hnid])]
        | .vNum r => rw [hh] at hnid; dsimp only; rw [if_pos (by simp [hnid])]
        | .vBool r => rw [hh] at hnid; dsimp only; rw [if_pos (by simp [hnid])]
        | .vObj r => rw [hh] at hnid; dsimp only; rw [if_pos (by simp [hnid])]
      | vNum n =>
        dsimp only
        match hh : h (.vNum n) (.custom (some name)) σ with
        | .vArr ids => exact absurd hh (hne ids)
        | .vStr r => rw [hh] at hnid; dsimp only; rw [if_pos (by simp [hnid])]
        | .vNum r => rw [hh] at hnid; dsimp only; rw [if_pos (by simp [hnid])]
        | .vBool r => rw [hh] at hnid; dsimp only; rw [if_pos (by simp [hnid])]
        | .vObj r => rw [hh] at hnid; dsimp only; rw [if_pos (by simp [hnid])]
      | vBool b =>
        dsimp only
        match hh : h (.vBool b) (.custom (some name)) σ with
        | .vArr ids => exact absurd hh (hne ids)
        | .vStr r => rw [hh] at hnid; dsimp only; rw [if_pos (by simp [hnid])]
        | .vNum r => rw [hh] at hnid; dsimp only; rw [if_pos (by simp [hnid])]
        | .vBool r => rw [hh] at hnid; dsimp only; rw [if_pos (by simp [hnid])]
        | .vObj r => rw [hh] at hnid; dsimp only; rw [if_pos (by simp [hnid])]
      | vObj fs =>
        dsimp only
        match hh : h (.vObj fs) (.custom (some name)) σ with
        | .vArr ids => exact absurd hh (hne ids)
        | .vStr r => rw [hh] at hnid; dsimp only; rw [if_pos (by simp [hnid])]
        | .vNum r => rw [hh] at hnid; dsimp only; rw [if_pos (by simp [hnid])]
        | .vBool r => rw [hh] at hnid; dsimp only; rw [if_pos (by simp [hnid])]
        | .vObj r => rw [hh] at hnid; dsimp only; rw [if_pos (by simp [hnid])]
    · intro hid
      refine ⟨?_, partLookup_storeWrite_self (ensurePartition σ name) name
        (jsToString (h v (.custom (some name)) σ)) v⟩
      rw [hunfold]
      cases v with
      | vArr xs => exact absurd rfl (hv xs)
      | vStr sv =>
        dsimp only
        match hh : h (.vStr sv) (.custom (some name)) σ with
        | .vArr ids => rw [hh] at hid; simp [isEntityID] at hid
        | .vStr r => rw [hh] at hid; dsimp only; rw [if_neg (by simp [hid])]
        | .vNum r => rw [hh] at hid; dsimp only; rw [if_neg (by simp [hid])]
        | .vBool r => rw [hh] at hid; simp [isEntityID] at hid
        | .vObj r => rw [hh] at hid; simp [isEntityID] at hid
      | vNum n =>
        dsimp only
        match hh : h (.vNum n) (.custom (some name)) σ with
        | .vArr ids => rw [hh] at hid; simp [isEntityID] at hid
        | .vStr r => rw [hh] at hid; dsimp only; rw [if_neg (by simp [hid])]
        | .vNum r => rw [hh] at hid; dsimp only; rw [if_neg (by simp [hid])]
        | .vBool r => rw [hh] at hid; simp [isEntityID] at hid
        | .vObj r => rw [hh] at hid; simp [isEntityID] at hid
      | vBool b =>
        dsimp only
        match hh : h (.vBool b) (.custom (some name)) σ with
        | .vArr ids => rw [hh] at hid; simp [isEntityID] at hid
        | .vStr r => rw [hh] at hid; dsimp only; rw [if_neg (by simp [hid])]
        | .vNum r => rw [hh] at hid; dsimp only; rw [if_neg (by simp [hid])]
        | .vBool r => rw [hh] at hid; simp [isEntityID] at hid
        | .vObj r => rw [hh] at hid; simp [isEntityID] at hid
      | vObj fs =>
        dsimp only
        match hh : h (.vObj fs) (.custom (some name)) σ with
        | .vArr ids => rw [hh] at hid; simp [isEntityID] at hid
        | .vStr r => rw [hh] at hid; dsimp only; rw [if_neg (by simp [hid])]
        | .vNum r => rw [hh] at hid; dsimp only; rw [if_neg (by simp [hid])]
        | .vBool r => rw [hh] at hid; simp [isEntityID] at hid
        | .vObj r => rw [hh] at hid; simp [isEntityID] at hid



/-- Claim C9, exercised concretely with handler `h9`: an array input gets its
elements stored under the handler-returned ids, and a scalar input is stored
under the single returned id, by the engine itself. -/
theorem c9_custom_contract_witness :
    normalizeCustomEntity reg9 (.vArr [.vStr "a", .vStr "b"]) (some "widget") [] =
      .ok (.vArr [.vStr "id_a", .vStr "id_b"],
        [("widget", [("id_a", .vStr "a"), ("id_b", .vStr "b")])]) ∧
    normalizeCustomEntity reg9 (.vNum 7) (some "widget") [] =
      .ok (.vStr "w1", [("widget", [("w1", .vNum 7)])]) := by
  have hmain := c9_custom_contract reg9 "widget" h9 (by decide) rfl []
  constructor
  · have h1 := (hmain.1 [.vStr "a", .vStr "b"] [.vStr "id_a", .vStr "id_b"]
      rfl (by decide) rfl).1
    refine h1.trans ?_
    simp [ensurePartition, storeWrite, aupsert, alookup, jsToString]
  · have hid : isEntityID (h9 (.vNum 7) (.custom (some "widget")) []) = true := by decide
    have h2 := ((hmain.2.2.2 (.vNum 7) (fun xs hx => Value.noConfusion hx)).2.2 hid).1
    refine h2.trans ?_
    simp [h9, ensurePartition, storeWrite, aupsert, alookup, jsToString]


/-- Claim C2: last-write-wins dedup.  Normalizing an array that contains an
earlier object occurrence and a final object occurrence with the same entity
type and the same `id`: the last occurrence's store write lands last, so the
final store holds under `(type, String(id))` exactly the LAST occurrence's
normalized property object — the earlier entry is overwritten, never merged —
and, starting from a well-formed store, the partition keeps exactly one entry
for that key. -/
theorem c2_last_write_wins (reg : Registry) (cr : String → Option (String → Bool))
    (anm nm : Option String) (props : List (String × SchemaEntity))
    (req : Option (List String)) (l : List Value) (af bf : List (String × Value))
    (idv : Value) (σ σmid σ₁ : Store) (rs₀ : List Value) (fs : List (String × Value))
    (hdup : Value.vObj af ∈ l) (haid : alookup af "id" = some idv)
    (hbid : alookup bf "id" = some idv) (hidok : isEntityID idv = true)
    (hpre : normalizeItems reg cr (.obj nm props req) l 0 σ = .ok (rs₀, σmid))
    (hprops : normalizePropsChecked reg cr props bf (entityNameOf nm) idv req
      (ensurePartition σmid (entityNameOf nm)) = .ok (fs, σ₁))
    (hwf : StoreWF σ) :
    normalizeEntity reg cr (.obj nm props req) (.vObj bf) σmid =
      .ok (idv, storeWrite σ₁ (entityNameOf nm) (jsToString idv) (.vObj fs)) ∧
    normalizeEntity reg cr (.arr anm (.obj nm props req)) (.vArr (l ++ [.vObj bf])) σ =
      .ok (.vArr (rs₀ ++ [idv]),
        storeWrite σ₁ (entityNameOf nm) (jsToString idv) (.vObj fs)) ∧
    partLookup (storeWrite σ₁ (entityNameOf nm) (jsToString idv) (.vObj fs))
      (entityNameOf nm) (jsToString idv) = some (.vObj fs) ∧
    (∀ part, alookup (storeWrite σ₁ (entityNameOf nm) (jsToString idv) (.vObj fs))
        (entityNameOf nm) = some part →
      (part.map Prod.fst).count (jsToString idv) = 1) := by
  have hA : normalizeEntity reg cr (.obj nm props req) (.vObj bf) σmid =
      .ok (idv, storeWrite σ₁ (entityNameOf nm) (jsToString idv) (.vObj fs)) := by
    simp only [normalizeEntity]
    rw [normalizeObject_vObj, hbid]
    dsimp only
    rw [hprops]
  have hone : normalizeItems reg cr (.obj nm props req) [.vObj bf] (0 + l.length) σmid =
      .ok ([idv], storeWrite σ₁ (entityNameOf nm) (jsToString idv) (.vObj fs)) := by
    simp only [normalizeItems]
    rw [hA]
    cases idv with
    | vStr sv =>
      dsimp only
      rw [if_neg (show ¬¬isEntityID (Value.vStr sv) = true by simp [isEntityID])]
    | vNum n =>
      dsimp only
      rw [if_neg (show ¬¬isEntityID (Value.vNum n) = true by simp [isEntityID])]
    | vBool b => simp [isEntityID] at hidok
    | vArr xs => simp [isEntityID] at hidok
    | vObj ofs => simp [isEntityID] at hidok
  have hB : normalizeEntity reg cr (.arr anm (.obj nm props req))
      (.vArr (l ++ [.vObj bf])) σ =
      .ok (.vArr (rs₀ ++ [idv]),
        storeWrite σ₁ (entityNameOf nm) (jsToString idv) (.vObj fs)) := by
    simp only [normalizeEntity, normalizeArray]
    rw [normalizeItems_append reg cr _ l [.vObj bf] 0 σ, hpre]
    dsimp only
    rw [hone]
  refine ⟨hA, hB, partLookup_storeWrite_self σ₁ (entityNameOf nm)
    (jsToString idv) (.vObj fs), ?_⟩
  intro part hpart
  have hwfin : StoreWF (storeWrite σ₁ (entityNameOf nm) (jsToString idv) (.vObj fs)) :=
    normalizeEntity_wf reg cr _ _ σ _ _ hB hwf
  have hnd : (part.map Prod.fst).Nodup :=
    hwfin.2 (entityNameOf nm, part) (alookup_mem _ _ _ hpart)
  have hckey : alookup part (jsToString idv) = some (.vObj fs) := by
    have hc := partLookup_storeWrite_self σ₁ (entityNameOf nm) (jsToString idv) (.vObj fs)
    unfold partLookup at hc
    rw [hpart] at hc
    exact hc
  exact count_key_of_nodup part (jsToString idv) (.vObj fs) hnd hckey

/-- Claim C2, exercised concretely: two `user` objects with id `"1"`, the
first carrying `n = "old"`, the second `n = "new"`; the store ends with the
single entry `user/"1" ↦ {id: "1", n: "new"}`. -/
theorem c2_last_write_wins_witness :
    normalizeEntity [] cr0 (.arr none (.obj (some "user") [("id", strS), ("n", strS)] none))
      (.vArr [.vObj [("id", .vStr "1"), ("n", .vStr "old")],
              .vObj [("id", .vStr "1"), ("n", .vStr "new")]]) [] =
      .ok (.vArr [.vStr "1", .vStr "1"],
        [("user", [("1", .vObj [("id", .vStr "1"), ("n", .vStr "new")])])]) ∧
    partLookup [("user", [("1", Value.vObj [("id", Value.vStr "1"), ("n", Value.vStr "new")])])]
      "user" "1" = some (.vObj [("id", .vStr "1"), ("n", .vStr "new")]) ∧
    ([("1", Value.vObj [("id", Value.vStr "1"), ("n", Value.vStr "new")])].map
      Prod.fst).count "1" = 1 := by
  have h := c2_last_write_wins [] cr0 none (some "user") [("id", strS), ("n", strS)] none
    [.vObj [("id", .vStr "1"), ("n", .vStr "old")]]
    [("id", .vStr "1"), ("n", .vStr "old")] [("id", .vStr "1"), ("n", .vStr "new")]
    (.vStr "1") []
    [("user", [("1", .vObj [("id", .vStr "1"), ("n", .vStr "old")])])]
    [("user", [("1", .vObj [("id", .vStr "1"), ("n", .vStr "old")])])]
    [.vStr "1"] [("id", .vStr "1"), ("n", .vStr "new")]
    (by simp) rfl rfl rfl
    (by simp [normalizeItems, normalizeEntity, normalizeObject, normalizePropsChecked,
      requiredContains, normalizePrimitive, normalizePrimitive.normalizeStringTail,
      normalizePrimitive.normalizePatternTail, ensurePartition, storeWrite, alookup,
      aupsert, entityNameOf, jsToString, isEntityID, typeofValue, strS, cr0])
    (by simp [normalizePropsChecked, requiredContains, normalizeEntity, normalizePrimitive,
      normalizePrimitive.normalizeStringTail, normalizePrimitive.normalizePatternTail,
      ensurePartition, alookup, entityNameOf, typeofValue, strS, cr0])
    storeWF_nil
  refine ⟨?_, ?_, ?_⟩
  · refine h.2.1.trans ?_
    simp [storeWrite, aupsert, alookup, jsToString, entityNameOf]
  · have hc := h.2.2.1
    simpa [storeWrite, aupsert, alookup, jsToString, entityNameOf, partLookup] using hc
  · have hd := h.2.2.2
      [("1", Value.vObj [("id", Value.vStr "1"), ("n", Value.vStr "new")])]
      (by simp [storeWrite, aupsert, alookup, jsToString, entityNameOf])
    simpa [jsToString] using hd

end DataNormTS

